import Mathlib

/-!
Verification of the blink guest virtual-memory subsystem
(src/blink/memory.c, src/blink/memorymalloc.c, src/blink/address.c).

Shallow embedding conventions:
* Machine integers are `Nat` bit patterns; 64-bit wrap-around is written
  explicitly as `% 2 ^ 64`.  Signed `i64` comparisons from the C source are
  translated on the two's-complement pattern via `toI64`.
* Host memory is one flat byte map `mem : Nat → Nat`; the physical arena
  `real.p` lives at host address `realBase`, so the arena byte at offset `o`
  is `mem (realBase + o)`.  `Load64`/`Store64`/`memcpy`/`memset` act on this
  map little-endian, exactly as the byte-wise C accessors do.
* Debug-only `unassert`/`assert` checks are compiled out in release builds;
  they are modelled separately as propositions where a claim is about them.
* `realloc` success/failure and the address of a reallocated arena are not
  determined by the program state, so they are passed as an explicit oracle
  `grow : System → Option Nat` (`none` = realloc failed, `some b` = success
  with new base address `b`).  `malloc` success for free-list nodes is the
  boolean oracle `mallocOk`.
* Statistics macros (`STATISTIC(...)`) are telemetry compiled out of the
  source build and are not modelled.
-/

namespace Blink

/-- Page-table entry flag: V (valid / present), bit 0 (spec section 6). -/
def PAGE_V : Nat := 0x1

/-- Modelled from the spec: the flag constants live in blink/pml4t.h which is
not under src/.  The spec fixes V at bit 0 and PAGE_TA at bits 12..47 and
says only that RSRV, HOST and MAP are distinct flag bits outside those
fields; we place them at bits 9, 10, 11 (the x86 ignored-bit region).  No
claim depends on the particular positions. -/
def PAGE_RSRV : Nat := 0x200

/-- Modelled from the spec: HOST flag bit (address field is a host pointer). -/
def PAGE_HOST : Nat := 0x400

/-- Modelled from the spec: MAP flag bit (host-mapped page). -/
def PAGE_MAP : Nat := 0x800

/-- Physical-address field of a page-table entry: bits 12..47 (spec section 6). -/
def PAGE_TA : Nat := 0xFFFFFFFFF000

/-- Modelled from the spec: kRealSize is declared in a header not under src/;
the spec describes it only as the static bound on usable arena offsets
(GetPageAddress rejects entries whose target would not fit below it).  The
claims settled here do not depend on its value; we fix 2^40. -/
def kRealSize : Nat := 0x10000000000

/-- Modelled from the spec: kTlbEntries is declared in a header not under
src/; the spec requires a fixed size that is a power of two and a multiple
of 8.  We fix the upstream value 16 (so the tag probe has two 8-byte
groups). -/
def kTlbEntries : Nat := 16

/-- All-ones 64-bit mask, used to translate C bitwise complement `~x`. -/
def mask64 : Nat := 2 ^ 64 - 1

/-- Two's-complement reading of a 64-bit pattern, for the source's signed
`i64` comparisons. -/
def toI64 (p : Nat) : Int :=
  if p < 2 ^ 63 then (p : Int) else (p : Int) - 2 ^ 64

/-- Little-endian 64-bit load from the flat byte memory (Read64/Load64). -/
def load64 (mem : Nat → Nat) (a : Nat) : Nat :=
  mem a % 256 + mem (a + 1) % 256 * 2 ^ 8 + mem (a + 2) % 256 * 2 ^ 16 +
    mem (a + 3) % 256 * 2 ^ 24 + mem (a + 4) % 256 * 2 ^ 32 +
    mem (a + 5) % 256 * 2 ^ 40 + mem (a + 6) % 256 * 2 ^ 48 +
    mem (a + 7) % 256 * 2 ^ 56

/-- Little-endian 64-bit store to the flat byte memory (Write64/Store64). -/
def store64 (mem : Nat → Nat) (a x : Nat) : Nat → Nat :=
  fun b => if a ≤ b ∧ b < a + 8 then x / 2 ^ ((b - a) * 8) % 256 else mem b

/-- memset(dst, 0, len) on the flat byte memory. -/
def zeroFill (mem : Nat → Nat) (a len : Nat) : Nat → Nat :=
  fun b => if a ≤ b ∧ b < a + len then 0 else mem b

/-- memcpy(hostDst, buf + srcOff, len): copy `len` bytes of the host-side
buffer `src` (starting at `srcOff`) into the byte memory at address `a`. -/
def copyBytes (mem : Nat → Nat) (a : Nat) (src : Nat → Nat) (srcOff len : Nat) :
    Nat → Nat :=
  fun b => if a ≤ b ∧ b < a + len then src (srcOff + (b - a)) % 256 else mem b

/-- memcpy(buf + bufOff, hostSrc, len): copy `len` bytes of the byte memory
(starting at address `a`) into the host-side buffer at offset `bufOff`. -/
def readBytes (buf : Nat → Nat) (bufOff : Nat) (mem : Nat → Nat) (a len : Nat) :
    Nat → Nat :=
  fun j => if bufOff ≤ j ∧ j < bufOff + len then mem (a + (j - bufOff)) % 256 else buf j

/-- The memstat counter block of a System (struct declared outside src/;
field list follows spec section 3).  Counters are C signed longs, so `Int`. -/
structure Memstat where
  allocated : Int
  committed : Int
  freed : Int
  reserved : Int
  reclaimed : Int
  resizes : Int
  pagetables : Int
  deriving DecidableEq, Repr

/-- struct System: physical arena (base address, watermark `real.i`,
capacity `real.n`), root page table `cr3`, the Real-Free list of
`(offset, length)` chunks, and the memstat block. -/
structure System where
  realBase : Nat
  mem : Nat → Nat
  reali : Nat
  realn : Nat
  cr3 : Nat
  realfree : List (Nat × Nat)
  memstat : Memstat

/-- struct TlbEntry: a `(virtual page, leaf entry)` pair (64-bit patterns). -/
structure TlbEntry where
  page : Nat
  entry : Nat
  deriving DecidableEq, Repr

/-- The TLB: kTlbEntries = 16 entries plus the packed byte-tag array
(two 64-bit key words, one byte per slot). -/
structure Tlb where
  key : Fin 2 → Nat
  entry : Fin 16 → TlbEntry

/-- Execution mode of the machine (XED_MODE_REAL / _LEGACY / _LONG). -/
inductive Mode where
  | real
  | legacy
  | long
  deriving DecidableEq, Repr

/-- struct Machine: the per-hart state the memory subsystem touches.
`linear` models the HasLinearMapping/ToHost configuration from spec
section 4.5: `some toHostBase` means `ToHost v = toHostBase + v`. -/
structure Machine where
  system : System
  tlb : Tlb
  invalidated : Bool
  mode : Mode
  linear : Option Nat

/-- CompareEq (memory.c line 35): SWAR per-byte comparison.
C `w - 0x0101010101010101` is 64-bit wrap-around subtraction, written as
addition of the two's complement; C `~w` is `w ^^^ mask64`. -/
def CompareEq (x y : Nat) : Nat :=
  let w := x ^^^ y
  (w ^^^ mask64) &&& ((w + (2 ^ 64 - 0x0101010101010101)) % 2 ^ 64) &&&
    0x8080808080808080

/-- GetPageAddress (memory.c line 54): host address of the 4 KiB page an
entry points to; `none` models the C NULL return. -/
def GetPageAddress (s : System) (entry : Nat) : Option Nat :=
  if entry &&& PAGE_HOST ≠ 0 then some (entry &&& PAGE_TA)
  else if (entry &&& PAGE_TA) + 4096 ≤ kRealSize then
    some (s.realBase + (entry &&& PAGE_TA))
  else none

/-- Host address GetPageAddress yields, with the C NULL dereference of the
unchecked walker modelled as address 0 (documented; no claim exercises it). -/
def gpaD (s : System) (entry : Nat) : Nat :=
  (GetPageAddress s entry).getD 0

/-- The split point of a page-crossing access in EndStore/AccessRam
(memory.c lines 306-307): `k = 4096; k -= v & 4095`. -/
def EndStoreCrossK (v : Nat) : Nat :=
  4096 - (v &&& 4095)

/-- EndStore (memory.c line 302): scatter the bounce buffer `b` back to the
two page halves `p0`, `p1` if and only if the operand crossed a page
boundary.  The debug-only unasserts are modelled separately. -/
def EndStore (m : Machine) (v n p0 p1 : Nat) (b : Nat → Nat) : Machine :=
  if (v &&& 4095) + n ≤ 4096 then m
  else
    let k := EndStoreCrossK v
    { m with system := { m.system with
        mem := copyBytes (copyBytes m.system.mem p0 b 0 k) p1 b k (n - k) } }

theorem land_4095_eq_mod (v : Nat) : v &&& 4095 = v % 4096 := by
  have h : (4095 : Nat) = 2 ^ 12 - 1 := by norm_num
  rw [h, Nat.and_pow_two_sub_one_eq_mod]

/-- A baseline machine with zeroed memory, used by concrete witnesses. -/
def m0 : Machine :=
  { system :=
      { realBase := 0, mem := (fun _ => 0), reali := 0, realn := 0,
        cr3 := 0, realfree := [], memstat := ⟨0, 0, 0, 0, 0, 0, 0⟩ },
    tlb := { key := (fun _ => 0), entry := (fun _ => ⟨0, 0⟩) },
    invalidated := false,
    mode := Mode.long,
    linear := none }

/-- A concrete host-side buffer used by witnesses. -/
def b0 : Nat → Nat :=
  fun j => j % 256

/-- Claim C6: EndStore writes guest memory iff the operand crosses a page
boundary ((v & 4095) + n > 4096); in the crossing case, with
k = 4096 - (v & 4095), it copies exactly the first k bytes of b to p0 and
the remaining n - k bytes of b to p1 (the p1 copy performed second); in the
single-page case it performs no copy at all. -/
theorem EndStore_spec (m : Machine) (v n p0 p1 : Nat) (b : Nat → Nat)
    (hn : n ≤ 4096) :
    ((v &&& 4095) + n ≤ 4096 → EndStore m v n p0 p1 b = m) ∧
    (4096 < (v &&& 4095) + n →
      (EndStore m v n p0 p1 b).system.mem = fun a =>
        if p1 ≤ a ∧ a < p1 + (n - EndStoreCrossK v) then
          b (EndStoreCrossK v + (a - p1)) % 256
        else if p0 ≤ a ∧ a < p0 + EndStoreCrossK v then b (a - p0) % 256
        else m.system.mem a) := by
  constructor
  · intro h
    simp [EndStore, h]
  · intro h
    have h' : ¬((v &&& 4095) + n ≤ 4096) := by omega
    funext a
    simp only [EndStore, h', if_false]
    by_cases h1 : p1 ≤ a ∧ a < p1 + (n - EndStoreCrossK v)
    · simp [copyBytes, h1]
    · by_cases h0 : p0 ≤ a ∧ a < p0 + EndStoreCrossK v
      · simp [copyBytes, h1, h0]
      · simp [copyBytes, h1, h0]

/-- Witness for C6 at v = 0xFFE, n = 4 (crossing, k = 2). -/
theorem EndStore_spec_witness :
    ((4 : Nat) ≤ 4096) ∧
    (((0xFFE &&& 4095) + 4 ≤ 4096 → EndStore m0 0xFFE 4 100 200 b0 = m0) ∧
    (4096 < (0xFFE &&& 4095) + 4 →
      (EndStore m0 0xFFE 4 100 200 b0).system.mem = fun a =>
        if 200 ≤ a ∧ a < 200 + (4 - EndStoreCrossK 0xFFE) then
          b0 (EndStoreCrossK 0xFFE + (a - 200)) % 256
        else if 100 ≤ a ∧ a < 100 + EndStoreCrossK 0xFFE then b0 (a - 100) % 256
        else m0.system.mem a)) :=
  ⟨by norm_num, EndStore_spec m0 0xFFE 4 100 200 b0 (by norm_num)⟩

/-- Claim C10: on every page-crossing store (n ≤ 4096 and
(v & 4095) + n > 4096) the split point k = 4096 - (v & 4095) satisfies
k < n, so the source's internal assertion k > n (memory.c line 308) is
false and fires on every call that reaches it; the intended condition
k ≤ n does hold. -/
theorem EndStore_assert_k_gt_n_always_fails (v n : Nat) (hn : n ≤ 4096)
    (hcross : 4096 < (v &&& 4095) + n) :
    ¬(EndStoreCrossK v > n) ∧ EndStoreCrossK v < n := by
  have h := land_4095_eq_mod v
  have hm : v % 4096 < 4096 := Nat.mod_lt _ (by norm_num)
  unfold EndStoreCrossK
  omega

/-- Witness for C10 at the failing input v = 0xFFE, n = 4 (k = 2). -/
theorem EndStore_assert_witness :
    (4 : Nat) ≤ 4096 ∧ 4096 < (0xFFE &&& 4095) + 4 ∧
      (¬(EndStoreCrossK 0xFFE > 4) ∧ EndStoreCrossK 0xFFE < 4) :=
  ⟨by norm_num, by decide,
    EndStore_assert_k_gt_n_always_fails 0xFFE 4 (by norm_num) (by decide)⟩

/-- Modelled from the spec: the ROUNDUP macro lives in blink/macros.h which
is not under src/; the spec says capacity is rounded up to a multiple of
4 KiB, the standard C idiom ((x + k - 1) / k * k). -/
def ROUNDUP (x k : Nat) : Nat :=
  (x + k - 1) / k * k

/-- Modelled from the spec: ResetTlb is declared outside src/.  Spec
sections 3 and 4.3: resetting clears the whole TLB, leaving every slot
invalid (leaf entry 0) with zeroed tags. -/
def ResetTlb (m : Machine) : Machine :=
  { m with tlb := { key := (fun _ => 0), entry := (fun _ => ⟨0, 0⟩) } }

/-- The TLB contents produced by ResetTlb. -/
def emptyTlb : Tlb :=
  { key := (fun _ => 0), entry := (fun _ => ⟨0, 0⟩) }

/-- AllocateLinearPageRaw (memorymalloc.c line 80).  Returns the arena
offset of the produced page, or `none` for the C return value -1.  The
reuse path detaches 4 KiB from the head Real-Free chunk; the grow path
bumps the watermark, first growing capacity through the realloc oracle
when `real.i == real.n` (on growth the memory is copied to the new base
and the TLB is reset). -/
def AllocateLinearPageRaw (grow : System → Option Nat) (m : Machine) :
    Option (Nat × Machine) :=
  match m.system.realfree with
  | (rfi, rfn) :: rest =>
      let rf' := if (rfn + 2 ^ 64 - 4096) % 2 ^ 64 = 0 then rest
        else ((rfi + 4096) % 2 ^ 64, (rfn + 2 ^ 64 - 4096) % 2 ^ 64) :: rest
      some (rfi,
        { m with system :=
            { m.system with
              realfree := rf',
              memstat :=
                { m.system.memstat with
                  freed := m.system.memstat.freed - 1,
                  reclaimed := m.system.memstat.reclaimed + 1,
                  committed := m.system.memstat.committed + 1 } } })
  | [] =>
      let i := m.system.reali
      let grown : Option Machine :=
        if i = m.system.realn then
          let n1 := if m.system.realn ≠ 0 then
              (m.system.realn + m.system.realn / 2) % 2 ^ 64
            else 0x10000
          let n2 := ROUNDUP n1 0x1000 % 2 ^ 64
          match grow m.system with
          | none => none
          | some b =>
              let s := m.system
              let copied : Nat → Nat := fun a =>
                if b ≤ a ∧ a < b + min s.realn n2 then s.mem (s.realBase + (a - b))
                else s.mem a
              some (ResetTlb
                { m with system :=
                    { s with
                      realBase := b,
                      mem := copied,
                      realn := n2,
                      memstat :=
                        { s.memstat with resizes := s.memstat.resizes + 1 } } })
        else some m
      match grown with
      | none => none
      | some m1 =>
          some (i,
            { m1 with system :=
                { m1.system with
                  reali := (m1.system.reali + 4096) % 2 ^ 64,
                  memstat :=
                    { m1.system.memstat with
                      allocated := m1.system.memstat.allocated + 1,
                      committed := m1.system.memstat.committed + 1 } } })

/-- AllocateLinearPage (memorymalloc.c line 72): the raw allocator plus a
zero fill of the returned 4 KiB span. -/
def AllocateLinearPage (grow : System → Option Nat) (m : Machine) :
    Option (Nat × Machine) :=
  match AllocateLinearPageRaw grow m with
  | none => none
  | some (page, m1) =>
      some (page,
        { m1 with system :=
            { m1.system with
              mem := zeroFill m1.system.mem (m1.system.realBase + page) 4096 } })

/-- The capacity formula claimed by the spec for the grow path:
max(old × 1.5, 64 KiB) rounded up to a multiple of 4 KiB. -/
def claimedGrowCapacity (oldn : Nat) : Nat :=
  ROUNDUP (max (oldn + oldn / 2) 0x10000) 0x1000

/-- Claim C8 (amended): on the grow path (Real-Free list empty,
real.i = real.n) with a successful reallocation, the new capacity is
old + old/2 rounded up to a multiple of 4 KiB when the old capacity is
nonzero, and 64 KiB when it is zero (not max(old × 1.5, 64 KiB) in
general); the TLB is reset, memstat.resizes is incremented, and the call
returns the old real.i after bumping real.i by 4 KiB. -/
theorem AllocateLinearPageRaw_grow_spec (grow : System → Option Nat)
    (m : Machine) (b : Nat)
    (hfree : m.system.realfree = [])
    (hfull : m.system.reali = m.system.realn)
    (hgrow : grow m.system = some b)
    (hn : m.system.realn < 2 ^ 60) :
    ∃ m1, AllocateLinearPageRaw grow m = some (m.system.reali, m1) ∧
      m1.system.realn = (if m.system.realn = 0 then 0x10000
        else ROUNDUP (m.system.realn + m.system.realn / 2) 0x1000) ∧
      m1.system.reali = m.system.reali + 4096 ∧
      m1.tlb = emptyTlb ∧
      m1.system.memstat.resizes = m.system.memstat.resizes + 1 ∧
      m1.system.realBase = b := by
  have hrn : m.system.realn + m.system.realn / 2 < 2 ^ 64 := by
    have := m.system.realn.div_le_self 2
    have h60 : (2 : Nat) ^ 60 + 2 ^ 60 < 2 ^ 64 := by norm_num
    omega
  have hru : ROUNDUP (m.system.realn + m.system.realn / 2) 0x1000 < 2 ^ 64 := by
    unfold ROUNDUP
    have h1 : (m.system.realn + m.system.realn / 2 + 0x1000 - 1) / 0x1000 * 0x1000
        ≤ m.system.realn + m.system.realn / 2 + 0x1000 - 1 :=
      Nat.div_mul_le_self _ _
    omega
  obtain ⟨s, tl, inv, md, ln⟩ := m
  obtain ⟨rb, mm, ri, rn, c3, rf, ms⟩ := s
  dsimp only at hfree hfull hgrow hn hrn hru ⊢
  subst hfree hfull
  by_cases h0 : ri = 0
  · subst h0
    simp only [AllocateLinearPageRaw, hgrow]
    refine ⟨_, rfl, ?_, ?_, rfl, rfl, rfl⟩
    · norm_num [ROUNDUP, ResetTlb]
    · norm_num [ROUNDUP, ResetTlb]
  · simp only [AllocateLinearPageRaw, ne_eq, h0, not_false_eq_true, ite_true,
      if_pos rfl, hgrow, Nat.mod_eq_of_lt hrn, Nat.mod_eq_of_lt hru, ResetTlb]
    refine ⟨_, rfl, ?_, ?_, rfl, rfl, rfl⟩
    · simp [h0]
    · exact Nat.mod_eq_of_lt (by omega)

/-- A concrete machine exercising the C8 counterexample: empty free list,
real.i = real.n = 0x1000 (reachable via ReserveReal(0x1000) plus one
allocation). -/
def m8 : Machine :=
  { m0 with system := { m0.system with reali := 0x1000, realn := 0x1000 } }

/-- Counterexample for C8: at old capacity 0x1000 the code grows to
0x2000, but max(old × 1.5, 64 KiB) rounded to 4 KiB is 0x10000. -/
theorem AllocateLinearPageRaw_capacity_counterexample :
    (AllocateLinearPageRaw (fun _ => some 0) m8).map
        (fun pm => pm.2.system.realn) = some 0x2000 ∧
      (0x2000 : Nat) ≠ claimedGrowCapacity 0x1000 := by
  constructor
  · decide
  · decide

/-- Witness for C8 (amended) at the concrete machine m8. -/
theorem AllocateLinearPageRaw_grow_spec_witness :
    m8.system.realfree = [] ∧ m8.system.reali = m8.system.realn ∧
      (fun _ : System => some 17) m8.system = some 17 ∧
      m8.system.realn < 2 ^ 60 ∧
      ∃ m1, AllocateLinearPageRaw (fun _ => some 17) m8
          = some (m8.system.reali, m1) ∧
        m1.system.realn = (if m8.system.realn = 0 then 0x10000
          else ROUNDUP (m8.system.realn + m8.system.realn / 2) 0x1000) ∧
        m1.system.reali = m8.system.reali + 4096 ∧
        m1.tlb = emptyTlb ∧
        m1.system.memstat.resizes = m8.system.memstat.resizes + 1 ∧
        m1.system.realBase = 17 :=
  ⟨rfl, rfl, rfl, by decide,
    AllocateLinearPageRaw_grow_spec (fun _ => some 17) m8 17 rfl rfl rfl
      (by decide)⟩

/-- MachineRead64 (memorymalloc.c line 127): 64-bit little-endian load at
arena offset `i` (the debug assert on bounds is compiled out). -/
def MachineRead64 (s : System) (i : Nat) : Nat :=
  load64 s.mem (s.realBase + i)

/-- MachineWrite64 (memorymalloc.c line 132): 64-bit little-endian store at
arena offset `i`. -/
def MachineWrite64 (s : System) (i x : Nat) : System :=
  { s with mem := store64 s.mem (s.realBase + i) x }

/-- The inner walk of FindVirtual (memorymalloc.c lines 189-192): read one
entry per level at shifts 39, 30, 21, 12 and stop at the first entry with
the V bit clear; the result is the C loop variable `i` after the loop
(39, 30, 21 or 12 on a hole, 3 when every level is mapped).  C's arithmetic
shift of the signed virt agrees with `>>>` under the 9-bit mask. -/
def FindVirtualLevel (s : System) (virt : Nat) : Nat :=
  let p1 := MachineRead64 s ((s.cr3 &&& PAGE_TA) + ((virt >>> 39) &&& 511) * 8)
  if p1 &&& 1 = 0 then 39 else
  let p2 := MachineRead64 s ((p1 &&& PAGE_TA) + ((virt >>> 30) &&& 511) * 8)
  if p2 &&& 1 = 0 then 30 else
  let p3 := MachineRead64 s ((p2 &&& PAGE_TA) + ((virt >>> 21) &&& 511) * 8)
  if p3 &&& 1 = 0 then 21 else
  let p4 := MachineRead64 s ((p3 &&& PAGE_TA) + ((virt >>> 12) &&& 511) * 8)
  if p4 &&& 1 = 0 then 12 else 3

/-- One-body-iteration-per-fuel-unit embedding of the FindVirtual do-while
loop (memorymalloc.c lines 185-199); `none` means out of fuel.  The error
value models the C `enomem()` return (-1 with errno = ENOMEM). -/
def FindVirtualGo (s : System) (size : Nat) :
    Nat → Nat → Nat → Option (Except Unit Nat)
  | 0, _, _ => none
  | fuel + 1, virt, got =>
      if 0x800000000000 ≤ toI64 virt then some (Except.error ())
      else
        let i := FindVirtualLevel s virt
        if 12 ≤ i then
          let got1 := (got + 2 ^ i) % 2 ^ 64
          if got1 < size then FindVirtualGo s size fuel virt got1
          else some (Except.ok virt)
        else
          let virt1 := (virt + 4096) % 2 ^ 64
          if 0 < size then FindVirtualGo s size fuel virt1 0
          else some (Except.ok virt1)

/-- FindVirtual (memorymalloc.c line 182), with explicit fuel. -/
def FindVirtual (s : System) (virt size fuel : Nat) : Option (Except Unit Nat) :=
  FindVirtualGo s size fuel virt 0

theorem FindVirtualLevel_cases (s : System) (virt : Nat) :
    FindVirtualLevel s virt = 39 ∨ FindVirtualLevel s virt = 30 ∨
      FindVirtualLevel s virt = 21 ∨ FindVirtualLevel s virt = 12 ∨
      FindVirtualLevel s virt = 3 := by
  simp only [FindVirtualLevel]
  split
  · exact Or.inl rfl
  · split
    · exact Or.inr (Or.inl rfl)
    · split
      · exact Or.inr (Or.inr (Or.inl rfl))
      · split
        · exact Or.inr (Or.inr (Or.inr (Or.inl rfl)))
        · exact Or.inr (Or.inr (Or.inr (Or.inr rfl)))

theorem FindVirtualGo_ok (s : System) (size : Nat) (hsize : 1 ≤ size) :
    ∀ fuel virt got v, virt < 2 ^ 63 →
      FindVirtualGo s size fuel virt got = some (Except.ok v) →
      virt ≤ v ∧ v < 0x800000000000 ∧ 12 ≤ FindVirtualLevel s v ∧
        ∃ k0, v = virt + 4096 * k0 ∧
          ∀ k < k0, FindVirtualLevel s (virt + 4096 * k) = 3 := by
  intro fuel
  induction fuel with
  | zero => intro virt got v _ h; exact absurd h (by simp [FindVirtualGo])
  | succ fuel ih =>
    intro virt got v hv h
    simp only [FindVirtualGo] at h
    by_cases hb : 0x800000000000 ≤ toI64 virt
    · rw [if_pos hb] at h
      exact absurd h (by simp)
    · rw [if_neg hb] at h
      have hvb : virt < 0x800000000000 := by
        unfold toI64 at hb
        rw [if_pos hv] at hb
        exact_mod_cast by omega
      by_cases hi : 12 ≤ FindVirtualLevel s virt
      · rw [if_pos hi] at h
        by_cases hg : (got + 2 ^ FindVirtualLevel s virt) % 2 ^ 64 < size
        · rw [if_pos hg] at h
          exact ih virt _ v hv h
        · rw [if_neg hg] at h
          have hveq : v = virt := by simpa using h.symm
          subst hveq
          exact ⟨le_refl _, hvb, hi, 0, by omega, by omega⟩
      · rw [if_neg hi] at h
        rw [if_pos (show 0 < size from hsize)] at h
        have hv1 : (virt + 4096) % 2 ^ 64 = virt + 4096 := by
          apply Nat.mod_eq_of_lt
          have : (0x800000000000 : Nat) + 4096 < 2 ^ 64 := by norm_num
          omega
        rw [hv1] at h
        have hv1b : virt + 4096 < 2 ^ 63 := by
          have : (0x800000000000 : Nat) + 4096 < 2 ^ 63 := by norm_num
          omega
        obtain ⟨h1, h2, h3, k0, hk0, hall⟩ := ih (virt + 4096) 0 v hv1b h
        refine ⟨by omega, h2, h3, k0 + 1, by omega, ?_⟩
        intro k hk
        rcases Nat.eq_zero_or_pos k with hk0' | hk0'
        · subst hk0'
          have h39 := FindVirtualLevel_cases s virt
          simp only [Nat.mul_zero, Nat.add_zero]
          omega
        · have := hall (k - 1) (by omega)
          have harith : virt + 4096 + 4096 * (k - 1) = virt + 4096 * k := by
            have : k = k - 1 + 1 := by omega
            omega
          rw [harith] at this
          exact this

theorem FindVirtualGo_error (s : System) (size : Nat) :
    ∀ fuel virt got, virt < 2 ^ 63 →
      FindVirtualGo s size fuel virt got = some (Except.error ()) →
      ∀ k, virt + 4096 * k < 0x800000000000 →
        FindVirtualLevel s (virt + 4096 * k) = 3 := by
  intro fuel
  induction fuel with
  | zero => intro virt got _ h; exact absurd h (by simp [FindVirtualGo])
  | succ fuel ih =>
    intro virt got hv h k hk
    simp only [FindVirtualGo] at h
    by_cases hb : 0x800000000000 ≤ toI64 virt
    · exfalso
      unfold toI64 at hb
      rw [if_pos hv] at hb
      have : (0x800000000000 : Nat) ≤ virt := by exact_mod_cast hb
      omega
    · rw [if_neg hb] at h
      have hvb : virt < 0x800000000000 := by
        unfold toI64 at hb
        rw [if_pos hv] at hb
        exact_mod_cast by omega
      by_cases hi : 12 ≤ FindVirtualLevel s virt
      · rw [if_pos hi] at h
        by_cases hg : (got + 2 ^ FindVirtualLevel s virt) % 2 ^ 64 < size
        · rw [if_pos hg] at h
          exact ih virt _ hv h k hk
        · rw [if_neg hg] at h
          exact absurd h (by simp)
      · rw [if_neg hi] at h
        by_cases hs : 0 < size
        · rw [if_pos hs] at h
          have hv1 : (virt + 4096) % 2 ^ 64 = virt + 4096 := by
            apply Nat.mod_eq_of_lt
            have : (0x800000000000 : Nat) + 4096 < 2 ^ 64 := by norm_num
            omega
          rw [hv1] at h
          have hv1b : virt + 4096 < 2 ^ 63 := by
            have : (0x800000000000 : Nat) + 4096 < 2 ^ 63 := by norm_num
            omega
          rcases Nat.eq_zero_or_pos k with hk0 | hk0
          · subst hk0
            have h39 := FindVirtualLevel_cases s virt
            simp only [Nat.mul_zero, Nat.add_zero]
            omega
          · have := ih (virt + 4096) 0 hv1b h (k - 1) (by omega)
            have harith : virt + 4096 + 4096 * (k - 1) = virt + 4096 * k := by
              have : k = k - 1 + 1 := by omega
              omega
            rw [harith] at this
            exact this
        · rw [if_neg hs] at h
          exact absurd h (by simp)

/-- Claim C1 (amended): when FindVirtual(virt, size) with size ≥ 1 returns
an address v (rather than ENOMEM), then v ≥ virt, v is virt plus a whole
number of 4096-byte steps, v < 0x800000000000, the four-level walk from
cr3 at v meets an entry with the V bit clear at some level (so the page at
v is unmapped, though pages beyond the found hole's level-alignment
boundary inside [v, v+size) need not be unmapped), and every scanned
address before v was fully mapped; and it fails with ENOMEM exactly when
the scan reaches 0x800000000000, i.e. iff every scanned address below
0x800000000000 is fully mapped. -/
theorem FindVirtual_spec (s : System) (virt size fuel : Nat)
    (r : Except Unit Nat) (hv : virt < 2 ^ 63) (hsize : 1 ≤ size)
    (hres : FindVirtual s virt size fuel = some r) :
    (∀ v, r = Except.ok v →
      virt ≤ v ∧ v < 0x800000000000 ∧ 12 ≤ FindVirtualLevel s v ∧
        ∃ k0, v = virt + 4096 * k0 ∧
          ∀ k < k0, FindVirtualLevel s (virt + 4096 * k) = 3) ∧
    (r = Except.error () ↔
      ∀ k, virt + 4096 * k < 0x800000000000 →
        FindVirtualLevel s (virt + 4096 * k) = 3) := by
  constructor
  · intro v hr
    subst hr
    exact FindVirtualGo_ok s size hsize fuel virt 0 v hv hres
  · constructor
    · intro hr
      subst hr
      exact FindVirtualGo_error s size fuel virt 0 hv hres
    · intro hall
      cases r with
      | error e => rfl
      | ok v =>
        exfalso
        obtain ⟨h1, h2, h3, k0, hk0, _⟩ :=
          FindVirtualGo_ok s size hsize fuel virt 0 v hv hres
        have hl := hall k0 (by omega)
        rw [← hk0] at hl
        omega

/-- Builds a byte memory from a list of (8-aligned offset, 64-bit word)
pairs, all other bytes zero; used for concrete page-table states. -/
def mkMem (ws : List (Nat × Nat)) : Nat → Nat :=
  fun a => ((ws.lookup (a / 8 * 8)).getD 0) >>> (a % 8 * 8) % 256

/-- Concrete system for the C1 counterexample: cr3 = 0x1000; the walk for
page 0 is V-mapped down to the leaf table at 0x4000 whose entry 0 is clear
(a one-page hole) while entry 1 (page 0x1000) is V-mapped. -/
def s1 : System :=
  { realBase := 0,
    mem := mkMem [(0x1000, 0x2001), (0x2000, 0x3001), (0x3000, 0x4001),
      (0x4008, 0x5001)],
    reali := 0x8000, realn := 0x10000, cr3 := 0x1000, realfree := [],
    memstat := ⟨0, 0, 0, 0, 0, 0, 0⟩ }

/-- Counterexample for C1: FindVirtual(0, 8192) returns 0, but the page at
0x1000 inside the returned [0, 8192) run is mapped (its four-level walk
finds V set at every level), contradicting the claim that every page of
the returned run is unmapped. -/
theorem FindVirtual_counterexample :
    FindVirtual s1 0 8192 5 = some (Except.ok 0) ∧
      FindVirtualLevel s1 0x1000 = 3 := by
  constructor
  · rfl
  · rfl

/-- Witness for C1 (amended) on the concrete system s1. -/
theorem FindVirtual_spec_witness :
    (0 : Nat) < 2 ^ 63 ∧ (1 : Nat) ≤ 8192 ∧
      FindVirtual s1 0 8192 5 = some (Except.ok 0) ∧
      ((∀ v, (Except.ok 0 : Except Unit Nat) = Except.ok v →
        0 ≤ v ∧ v < 0x800000000000 ∧ 12 ≤ FindVirtualLevel s1 v ∧
          ∃ k0, v = 0 + 4096 * k0 ∧
            ∀ k < k0, FindVirtualLevel s1 (0 + 4096 * k) = 3) ∧
      ((Except.ok 0 : Except Unit Nat) = Except.error () ↔
        ∀ k, 0 + 4096 * k < 0x800000000000 →
          FindVirtualLevel s1 (0 + 4096 * k) = 3)) :=
  ⟨by norm_num, by norm_num, by rfl,
    FindVirtual_spec s1 0 8192 5 (Except.ok 0) (by norm_num) (by norm_num)
      (by rfl)⟩

/-- Byte lane i of a 64-bit value. -/
def byte (z i : Nat) : Nat :=
  z / 256 ^ i % 256

/-- The exact per-lane semantics of the SWAR expression: lane 0's bit is
set iff byte 0 of w = x XOR y is zero; lane i+1's bit is set iff byte i+1
of w is zero, or byte i+1 is exactly 1 while lane i's bit is set (a borrow
propagated from an equal lower lane). -/
def CompareEqSpecBit (w : Nat) : Nat → Bool
  | 0 => byte w 0 == 0
  | i + 1 => byte w (i + 1) == 0 || (byte w (i + 1) == 1 && CompareEqSpecBit w i)

theorem byte_eq_shift_and (z i : Nat) : byte z i = (z >>> (8 * i)) &&& 255 := by
  rw [show (255 : Nat) = 2 ^ 8 - 1 by norm_num, Nat.and_pow_two_sub_one_eq_mod,
    Nat.shiftRight_eq_div_pow, byte]
  rw [show (256 : Nat) ^ i = 2 ^ (8 * i) by
    rw [show (256 : Nat) = 2 ^ 8 by norm_num, ← pow_mul]]

theorem byte_xor (x y i : Nat) : byte (x ^^^ y) i = byte x i ^^^ byte y i := by
  rw [byte_eq_shift_and, byte_eq_shift_and, byte_eq_shift_and]
  apply Nat.eq_of_testBit_eq
  intro j
  simp only [Nat.testBit_and, Nat.testBit_xor, Nat.testBit_shiftRight]
  cases x.testBit (8 * i + j) <;> cases y.testBit (8 * i + j) <;>
    cases (255 : Nat).testBit j <;> rfl

theorem CompareEqSpecBit_of_byte_zero (w i : Nat) (h : byte w i = 0) :
    CompareEqSpecBit w i = true := by
  cases i with
  | zero => simp [CompareEqSpecBit, h]
  | succ j => simp [CompareEqSpecBit, h]

theorem highBitMask_testBit (i : Nat) (hi : i < 8) :
    (0x8080808080808080 : Nat).testBit (8 * i + 7) = true := by
  interval_cases i <;> decide

set_option maxRecDepth 8000 in
set_option maxHeartbeats 2000000 in
theorem compareEq_bit_char (x y : Nat) (i : Nat) (hi : i < 8) :
    (CompareEq x y).testBit (8 * i + 7) = CompareEqSpecBit (x ^^^ y) i := by
  simp only [CompareEq]
  generalize x ^^^ y = w
  rw [Nat.testBit_and, Nat.testBit_and, Nat.testBit_xor]
  rw [show mask64.testBit (8 * i + 7) = true by
    simp only [mask64, Nat.testBit_two_pow_sub_one]
    simp only [decide_eq_true_eq]
    omega]
  rw [highBitMask_testBit i hi]
  simp only [Bool.and_true, Bool.xor_true]
  rw [Bool.eq_iff_iff]
  interval_cases i <;>
  · simp only [CompareEqSpecBit, Nat.testBit_to_div_mod, byte,
      decide_eq_true_eq, Bool.not_eq_true', decide_eq_false_iff_not,
      Bool.or_eq_true, Bool.and_eq_true, beq_iff_eq]
    norm_num
    omega

/-- Claim C9 (amended): for 64-bit x and y and every lane i in 0..7, bit 7
of byte i of CompareEq(x, y) is set if byte i of x equals byte i of y, but
not only if: the bit is set exactly when byte i of x XOR y is zero, or it
is 1 (the bytes differ exactly in their lowest bit) while lane i-1's bit
is set — a false positive propagated from an equal lower lane. -/
theorem CompareEq_spec (x y : Nat) (hx : x < 2 ^ 64) (hy : y < 2 ^ 64)
    (i : Nat) (hi : i < 8) :
    (CompareEq x y).testBit (8 * i + 7) = CompareEqSpecBit (x ^^^ y) i ∧
    (byte x i = byte y i → (CompareEq x y).testBit (8 * i + 7) = true) := by
  constructor
  · exact compareEq_bit_char x y i hi
  · intro hb
    rw [compareEq_bit_char x y i hi]
    apply CompareEqSpecBit_of_byte_zero
    rw [byte_xor, hb, Nat.xor_self]

/-- Counterexample for C9: with x = 0x0100 and y = 0 the bytes in lane 1
differ (1 vs 0), yet bit 15 of CompareEq(x, y) is set: the SWAR expression
is not exact per-byte equality. -/
theorem CompareEq_counterexample :
    (CompareEq 0x0100 0).testBit 15 = true ∧ byte 0x0100 1 ≠ byte 0 1 := by
  constructor
  · decide
  · decide

/-- Witness for C9 (amended) at x = 5, y = 5, lane 0. -/
theorem CompareEq_spec_witness :
    (5 : Nat) < 2 ^ 64 ∧ (5 : Nat) < 2 ^ 64 ∧ (0 : Nat) < 8 ∧
      ((CompareEq 5 5).testBit (8 * 0 + 7) = CompareEqSpecBit (5 ^^^ 5) 0 ∧
        (byte 5 0 = byte 5 0 → (CompareEq 5 5).testBit (8 * 0 + 7) = true)) :=
  ⟨by norm_num, by norm_num, by norm_num,
    CompareEq_spec 5 5 (by norm_num) (by norm_num) 0 (by norm_num)⟩

/-- GetTlbKey (memory.c line 81): 8-bit tag of a virtual page, bits
12..19. -/
def GetTlbKey (page : Nat) : Nat :=
  (page &&& 0xff000) >>> 12

/-- Index of the packed key word holding slot i's tag. -/
def keyIdx (i : Fin 16) : Fin 2 :=
  ⟨i.val / 8, by have h := i.isLt; omega⟩

/-- SetTlbEntry (memory.c line 85): store entry `e` in slot `i` and its
8-bit tag in the packed key array. -/
def SetTlbEntry (m : Machine) (i : Fin 16) (e : TlbEntry) : Machine :=
  { m with tlb :=
      { key := fun g =>
          if g = keyIdx i then
            (m.tlb.key g &&& (mask64 ^^^ (0xFF <<< (i.val % 8 * 8)))) |||
              (GetTlbKey e.page <<< (i.val % 8 * 8))
          else m.tlb.key g,
        entry := fun j => if j = i then e else m.tlb.entry j } }

/-- Fuel-driven binary logarithm; 64 units of fuel cover every 64-bit
pattern, keeping the function kernel-reducible. -/
def bsrGo : Nat → Nat → Nat
  | 0, _ => 0
  | fuel + 1, x => if 2 ≤ x then bsrGo fuel (x / 2) + 1 else 0

/-- Modelled from the spec: bsr comes from blink/bitscan.h which is not
under src/; it is the index of the highest set bit (the binary logarithm,
computed with enough fuel for any 64-bit argument). -/
def bsr (x : Nat) : Nat :=
  bsrGo 64 x

/-- The hit action of the tag probe (memory.c lines 125-128): swap slot k
with slot k-1 (one-step bubble toward the hot end) and return the cached
leaf entry. -/
def TlbSwapHit (m : Machine) (k : Fin 16) : Nat × Machine :=
  let e := m.tlb.entry k
  let prev : Fin 16 := ⟨k.val - 1, by have h := k.isLt; omega⟩
  let m1 := SetTlbEntry m k (m.tlb.entry prev)
  ((e).entry, SetTlbEntry m1 prev e)

/-- The inner candidate loop of the portable tag probe (memory.c lines
119-131): take the highest tag-matching lane (bsr), verify the full page
field, on a hit swap-and-return, otherwise clear that lane and continue.
C clears one byte of the candidate mask per iteration, so at most 8
iterations run; the fuel (16 in all uses) only bounds this loop and
returning `none` means no verified hit in this 8-slot group.  The slot
index `i*8 + bsr(key)>>3` is below 16 whenever `key` fits the group mask,
which every reachable `key` does; `% 16` makes the function total. -/
def TlbProbeByteLoop (page g : Nat) : Nat → Nat → Machine →
    Option (Nat × Machine)
  | 0, _, _ => none
  | _ + 1, 0, _ => none
  | fuel + 1, key + 1, m =>
      let j := bsr (key + 1) >>> 3
      let k : Fin 16 := ⟨(g * 8 + j) % 16, by omega⟩
      if (m.tlb.entry k).page = page then some (TlbSwapHit m k)
      else TlbProbeByteLoop page g fuel
        ((key + 1) &&& (mask64 ^^^ (0xFF <<< (j * 8)))) m

/-- GetTlbEntry (memory.c line 91), the portable CompareEq path (the SIMD
path computes the same verified hits): slot-0 fast path, then the two
8-slot tag groups high-lane-first.  Returns the cached leaf entry (0 on a
miss) and the machine after any bubble promotion. -/
def GetTlbEntry (m : Machine) (page : Nat) : Nat × Machine :=
  if (m.tlb.entry 0).page = page then ((m.tlb.entry 0).entry, m)
  else
    match TlbProbeByteLoop page 0 16
        (CompareEq (m.tlb.key 0) (GetTlbKey page * 0x0101010101010101)) m with
    | some r => r
    | none =>
        match TlbProbeByteLoop page 1 16
            (CompareEq (m.tlb.key 1) (GetTlbKey page * 0x0101010101010101)) m with
        | some r => r
        | none => (0, m)

/-- The canonical-range condition of FindPageTableEntry (memory.c line
151) on the signed page pattern. -/
def canonicalPage (page : Nat) : Prop :=
  -0x800000000000 ≤ toI64 page ∧ toI64 page < 0x800000000000

instance (page : Nat) : Decidable (canonicalPage page) := by
  unfold canonicalPage
  infer_instance

/-- The four-level page walk of FindPageTableEntry (memory.c lines
154-160): at shifts 39, 30, 21, 12 load the 8-byte entry at
GetPageAddress(table) + index*8 and fail on a clear V bit.  Returns
(leaf entry, containing table entry, leaf index) for the demand pager. -/
def WalkPageTables (s : System) (page : Nat) : Option (Nat × Nat × Nat) :=
  let e1 := load64 s.mem (gpaD s s.cr3 + ((page >>> 39) &&& 511) * 8)
  if e1 &&& PAGE_V = 0 then none else
  let e2 := load64 s.mem (gpaD s e1 + ((page >>> 30) &&& 511) * 8)
  if e2 &&& PAGE_V = 0 then none else
  let e3 := load64 s.mem (gpaD s e2 + ((page >>> 21) &&& 511) * 8)
  if e3 &&& PAGE_V = 0 then none else
  let i4 := (page >>> 12) &&& 511
  let e4 := load64 s.mem (gpaD s e3 + i4 * 8)
  if e4 &&& PAGE_V = 0 then none else
  some (e4, e3, i4)

/-- The leaf entry of the pure four-level walk. -/
def WalkLeaf (s : System) (page : Nat) : Option Nat :=
  (WalkPageTables s page).map (fun r => r.1)

/-- Modelled from the spec: AllocatePage is declared outside src/; spec
section 4.4 says the demand pager allocates a fresh zero-filled page from
the Arena, whose allocator (section 4.1) is AllocateLinearPage. -/
def AllocatePage (grow : System → Option Nat) (m : Machine) :
    Option (Nat × Machine) :=
  AllocateLinearPage grow m

/-- HandlePageFault (memory.c line 66): allocate a page, adjust memstat
(reserved--, committed++), build the committed entry from the new page's
TA|HOST|MAP bits and the old entry's remaining flags minus RSRV, store it
into the containing table word, and return it; allocation failure returns
0 with nothing changed. -/
def HandlePageFault (grow : System → Option Nat) (m : Machine)
    (entry table index : Nat) : Nat × Machine :=
  match AllocatePage grow m with
  | none => (0, m)
  | some (page, m1) =>
      let m2 := { m1 with system :=
        { m1.system with
          memstat :=
            { m1.system.memstat with
              reserved := m1.system.memstat.reserved - 1,
              committed := m1.system.memstat.committed + 1 } } }
      let x := (page &&& (PAGE_TA ||| PAGE_HOST ||| PAGE_MAP)) |||
        (entry &&& (mask64 ^^^ (PAGE_TA ||| PAGE_RSRV)))
      (x, { m2 with system :=
        { m2.system with
          mem := store64 m2.system.mem (gpaD m2.system table + index * 8) x } })

/-- The slot FindPageTableEntry inserts at: kTlbEntries - 1. -/
def lastSlot : Fin 16 :=
  ⟨15, by norm_num⟩

/-- The walk phase of FindPageTableEntry (memory.c lines 151-166): range
check, four-level walk, demand paging of a reserved leaf, and insertion of
the translation at the coldest TLB slot. -/
def FindPageTableEntryWalk (grow : System → Option Nat) (m : Machine)
    (page : Nat) : Nat × Machine :=
  if ¬canonicalPage page then (0, m)
  else
    match WalkPageTables m.system page with
    | none => (0, m)
    | some (e4, table, index) =>
        if e4 &&& PAGE_RSRV ≠ 0 then
          match HandlePageFault grow m e4 table index with
          | (x, m1) =>
              if x = 0 then (0, m1)
              else (x, SetTlbEntry m1 lastSlot ⟨page, x⟩)
        else (e4, SetTlbEntry m lastSlot ⟨page, e4⟩)

/-- FindPageTableEntry (memory.c line 137): consume a pending
invalidation by resetting the TLB, otherwise probe the TLB and return on a
nonzero hit; then fall to the range-checked walk. -/
def FindPageTableEntry (grow : System → Option Nat) (m : Machine)
    (page : Nat) : Nat × Machine :=
  if m.invalidated then
    FindPageTableEntryWalk grow { ResetTlb m with invalidated := false } page
  else
    match GetTlbEntry m page with
    | (e, m1) => if e ≠ 0 then (e, m1) else FindPageTableEntryWalk grow m1 page

/-- The page pattern of the C expression virt & -4096. -/
def pageMask : Nat := 0xFFFFFFFFFFFFF000

/-- LookupAddress (memory.c line 169): in non-real mode translate the
aligned page through FindPageTableEntry and add the page offset to the
page's host address; in real mode map virt below 4 GiB directly into the
arena.  `none` is the C null return. -/
def LookupAddress (grow : System → Option Nat) (m : Machine) (virt : Nat) :
    Option Nat × Machine :=
  if m.mode ≠ Mode.real then
    match FindPageTableEntry grow m (virt &&& pageMask) with
    | (e, m1) =>
        if e = 0 then (none, m1)
        else
          match GetPageAddress m1.system e with
          | none => (none, m1)
          | some host => (some (host + (virt &&& 4095)), m1)
  else if 0 ≤ toI64 virt ∧ toI64 virt ≤ 0xffffffff ∧
      (virt &&& 0xffffffff) + 4095 < kRealSize then
    (some (m.system.realBase + virt), m)
  else (none, m)

/-- GetAddress (memory.c line 187): the linear-map shortcut when enabled
(ToHost modelled from spec section 4.5 as base + virt), else
LookupAddress. -/
def GetAddress (grow : System → Option Nat) (m : Machine) (virt : Nat) :
    Option Nat × Machine :=
  match m.linear with
  | some base => (some ((base + virt) % 2 ^ 64), m)
  | none => LookupAddress grow m virt

/-- ResolveAddress (memory.c line 192): GetAddress, where the C code
raises a non-returning segmentation fault on null; `none` models that
abort for callers. -/
def ResolveAddress (grow : System → Option Nat) (m : Machine) (virt : Nat) :
    Option Nat × Machine :=
  GetAddress grow m virt

theorem AllocateLinearPageRaw_memstat (grow : System → Option Nat)
    (m : Machine) (p : Nat) (m1 : Machine)
    (h : AllocateLinearPageRaw grow m = some (p, m1)) :
    m1.system.memstat.reserved = m.system.memstat.reserved ∧
      m1.system.memstat.committed = m.system.memstat.committed + 1 := by
  obtain ⟨s, tl, inv, md, ln⟩ := m
  obtain ⟨rb, mm, ri, rn, c3, rf, ms⟩ := s
  rcases rf with _ | ⟨⟨rfi, rfn⟩, rest⟩
  · by_cases hin : ri = rn
    · subst hin
      rcases hgr : grow ⟨rb, mm, ri, ri, c3, [], ms⟩ with _ | b
      · simp only [AllocateLinearPageRaw, hgr, if_pos rfl] at h
        exact absurd h (by simp)
      · simp only [AllocateLinearPageRaw, hgr, eq_self_iff_true, if_true,
          ResetTlb, Option.some.injEq, Prod.mk.injEq] at h
        obtain ⟨hp, hm1⟩ := h
        subst hm1
        exact ⟨rfl, rfl⟩
    · simp only [AllocateLinearPageRaw, if_neg hin, Option.some.injEq,
        Prod.mk.injEq] at h
      obtain ⟨hp, hm1⟩ := h
      subst hm1
      exact ⟨rfl, rfl⟩
  · simp only [AllocateLinearPageRaw, Option.some.injEq, Prod.mk.injEq] at h
    obtain ⟨hp, hm1⟩ := h
    subst hm1
    exact ⟨rfl, rfl⟩

theorem AllocateLinearPage_memstat (grow : System → Option Nat)
    (m : Machine) (p : Nat) (m1 : Machine)
    (h : AllocateLinearPage grow m = some (p, m1)) :
    m1.system.memstat.reserved = m.system.memstat.reserved ∧
      m1.system.memstat.committed = m.system.memstat.committed + 1 := by
  unfold AllocateLinearPage at h
  rcases hraw : AllocateLinearPageRaw grow m with _ | ⟨pr, mr⟩
  · rw [hraw] at h
    exact absurd h (by simp)
  · rw [hraw] at h
    simp only [Option.some.injEq, Prod.mk.injEq] at h
    obtain ⟨hp, hm1⟩ := h
    subst hm1
    exact AllocateLinearPageRaw_memstat grow m pr mr hraw

/-- Claim C4: for a reserved leaf entry (V and RSRV set), if the page
allocation inside HandlePageFault fails then HandlePageFault returns 0
with the machine unchanged — in particular the containing page-table word
still holds the original reserved entry and memstat.reserved and
memstat.committed are unchanged; only on successful allocation is the
committed entry stored into the table word, reserved decremented and
committed incremented (by two in this model: one from the arena allocator
AllocatePage is modelled as, one from the pager itself). -/
theorem HandlePageFault_spec (grow : System → Option Nat) (m : Machine)
    (entry table index : Nat)
    (hV : entry &&& PAGE_V ≠ 0) (hR : entry &&& PAGE_RSRV ≠ 0) :
    (AllocatePage grow m = none →
      HandlePageFault grow m entry table index = (0, m) ∧
      (HandlePageFault grow m entry table index).2.system.mem = m.system.mem ∧
      (HandlePageFault grow m entry table index).2.system.memstat.reserved
        = m.system.memstat.reserved ∧
      (HandlePageFault grow m entry table index).2.system.memstat.committed
        = m.system.memstat.committed) ∧
    (∀ page m1, AllocatePage grow m = some (page, m1) →
      ∃ x, HandlePageFault grow m entry table index =
          (x, (HandlePageFault grow m entry table index).2) ∧
        x = (page &&& (PAGE_TA ||| PAGE_HOST ||| PAGE_MAP)) |||
          (entry &&& (mask64 ^^^ (PAGE_TA ||| PAGE_RSRV))) ∧
        (HandlePageFault grow m entry table index).2.system.mem =
          store64 m1.system.mem (gpaD m1.system table + index * 8) x ∧
        (HandlePageFault grow m entry table index).2.system.memstat.reserved
          = m.system.memstat.reserved - 1 ∧
        m.system.memstat.committed <
          (HandlePageFault grow m entry table index).2.system.memstat.committed) := by
  constructor
  · intro hnone
    unfold HandlePageFault
    rw [hnone]
    exact ⟨rfl, rfl, rfl, rfl⟩
  · intro page m1 hsome
    have hms := AllocateLinearPage_memstat grow m page m1 hsome
    unfold HandlePageFault
    rw [hsome]
    refine ⟨_, rfl, rfl, ?_, ?_, ?_⟩
    · rfl
    · simp only
      omega
    · simp only
      omega

/-- Witness for C4: the failure clause discharged at a concrete machine
with an always failing allocator (m0 has an empty free list and
real.i = real.n = 0, so the grow oracle `fun _ => none` makes
AllocatePage fail), plus the success clause vacuously instantiated. -/
theorem HandlePageFault_spec_witness :
    ((0x201 : Nat) &&& PAGE_V ≠ 0) ∧ ((0x201 : Nat) &&& PAGE_RSRV ≠ 0) ∧
    ((AllocatePage (fun _ => none) m0 = none →
      HandlePageFault (fun _ => none) m0 0x201 0x1001 3 = (0, m0) ∧
      (HandlePageFault (fun _ => none) m0 0x201 0x1001 3).2.system.mem
        = m0.system.mem ∧
      (HandlePageFault (fun _ => none) m0 0x201 0x1001 3).2.system.memstat.reserved
        = m0.system.memstat.reserved ∧
      (HandlePageFault (fun _ => none) m0 0x201 0x1001 3).2.system.memstat.committed
        = m0.system.memstat.committed) ∧
    (∀ page m1, AllocatePage (fun _ => none) m0 = some (page, m1) →
      ∃ x, HandlePageFault (fun _ => none) m0 0x201 0x1001 3 =
          (x, (HandlePageFault (fun _ => none) m0 0x201 0x1001 3).2) ∧
        x = (page &&& (PAGE_TA ||| PAGE_HOST ||| PAGE_MAP)) |||
          (0x201 &&& (mask64 ^^^ (PAGE_TA ||| PAGE_RSRV))) ∧
        (HandlePageFault (fun _ => none) m0 0x201 0x1001 3).2.system.mem =
          store64 m1.system.mem (gpaD m1.system 0x1001 + 3 * 8) x ∧
        (HandlePageFault (fun _ => none) m0 0x201 0x1001 3).2.system.memstat.reserved
          = m0.system.memstat.reserved - 1 ∧
        m0.system.memstat.committed <
          (HandlePageFault (fun _ => none) m0 0x201 0x1001 3).2.system.memstat.committed)) :=
  ⟨by decide, by decide,
    HandlePageFault_spec (fun _ => none) m0 0x201 0x1001 3 (by decide) (by decide)⟩

/-- TLB soundness: every slot holding a nonzero cached leaf entry caches a
canonical page whose pure walk yields exactly that committed (non-RSRV)
entry.  This holds for a reset TLB and is maintained by the walker. -/
def tlbSound (m : Machine) : Prop :=
  ∀ i : Fin 16, (m.tlb.entry i).entry ≠ 0 →
    canonicalPage (m.tlb.entry i).page ∧
    WalkLeaf m.system (m.tlb.entry i).page = some (m.tlb.entry i).entry ∧
    (m.tlb.entry i).entry &&& PAGE_RSRV = 0

/-- No walk in the system reaches a reserved leaf (every successfully
walked leaf is committed), so a probe never invokes the demand pager. -/
def noReservedLeaf (s : System) : Prop :=
  ∀ page e, WalkLeaf s page = some e → e &&& PAGE_RSRV = 0

/-- The translation FindPageTableEntry computes when it does not fault:
0 outside the canonical range or on a failed walk, the walked leaf
otherwise. -/
def pureTransl (s : System) (page : Nat) : Nat :=
  if canonicalPage page then (WalkLeaf s page).getD 0 else 0

/-- A sequence of translations with the TLB enabled (the claim's left
run). -/
def runTlb (grow : System → Option Nat) : Machine → List Nat →
    List Nat × Machine
  | m, [] => ([], m)
  | m, p :: ps =>
      let r := FindPageTableEntry grow m p
      let rest := runTlb grow r.2 ps
      (r.1 :: rest.1, rest.2)

/-- The same sequence with the TLB reset before every probe (the claim's
reference run). -/
def runRef (grow : System → Option Nat) : Machine → List Nat →
    List Nat × Machine
  | m, [] => ([], m)
  | m, p :: ps =>
      let r := FindPageTableEntry grow (ResetTlb m) p
      let rest := runRef grow r.2 ps
      (r.1 :: rest.1, rest.2)

theorem tlbSound_reset (m : Machine) : tlbSound (ResetTlb m) := by
  intro i hi
  exact absurd rfl hi

theorem TlbSwapHit_system (m : Machine) (k : Fin 16) :
    (TlbSwapHit m k).2.system = m.system ∧
    (TlbSwapHit m k).2.invalidated = m.invalidated ∧
    (TlbSwapHit m k).2.mode = m.mode ∧
    (TlbSwapHit m k).2.linear = m.linear :=
  ⟨rfl, rfl, rfl, rfl⟩

theorem TlbSwapHit_slots (m : Machine) (k : Fin 16) (i : Fin 16) :
    ∃ j, (TlbSwapHit m k).2.tlb.entry i = m.tlb.entry j := by
  unfold TlbSwapHit SetTlbEntry
  simp only
  split
  · exact ⟨k, rfl⟩
  · split
    · exact ⟨_, rfl⟩
    · exact ⟨i, rfl⟩

theorem TlbSwapHit_fst (m : Machine) (k : Fin 16) :
    (TlbSwapHit m k).1 = (m.tlb.entry k).entry :=
  rfl

theorem TlbProbeByteLoop_some (page g : Nat) :
    ∀ fuel key m r, TlbProbeByteLoop page g fuel key m = some r →
      ∃ k : Fin 16, (m.tlb.entry k).page = page ∧ r = TlbSwapHit m k := by
  intro fuel
  induction fuel with
  | zero => intro key m r h; exact absurd h (by simp [TlbProbeByteLoop])
  | succ fuel ih =>
    intro key m r h
    cases key with
    | zero => exact absurd h (by simp [TlbProbeByteLoop])
    | succ key0 =>
      rw [TlbProbeByteLoop] at h
      by_cases hp : (m.tlb.entry
          ⟨(g * 8 + (bsr (key0 + 1) >>> 3)) % 16, by omega⟩).page = page
      · rw [if_pos hp] at h
        refine ⟨_, hp, ?_⟩
        simpa using h.symm
      · rw [if_neg hp] at h
        exact ih _ m r h

theorem GetTlbEntry_char (m : Machine) (page : Nat) :
    (GetTlbEntry m page).2.system = m.system ∧
    (GetTlbEntry m page).2.invalidated = m.invalidated ∧
    (GetTlbEntry m page).2.mode = m.mode ∧
    (GetTlbEntry m page).2.linear = m.linear ∧
    (∀ i, ∃ j, (GetTlbEntry m page).2.tlb.entry i = m.tlb.entry j) ∧
    ((GetTlbEntry m page).1 ≠ 0 → ∃ j, (m.tlb.entry j).page = page ∧
      (m.tlb.entry j).entry = (GetTlbEntry m page).1) := by
  unfold GetTlbEntry
  by_cases h0 : (m.tlb.entry 0).page = page
  · rw [if_pos h0]
    exact ⟨rfl, rfl, rfl, rfl, fun i => ⟨i, rfl⟩, fun _ => ⟨0, h0, rfl⟩⟩
  · rw [if_neg h0]
    rcases hg0 : TlbProbeByteLoop page 0 16
        (CompareEq (m.tlb.key 0) (GetTlbKey page * 0x0101010101010101)) m with
      _ | r0
    · rcases hg1 : TlbProbeByteLoop page 1 16
          (CompareEq (m.tlb.key 1) (GetTlbKey page * 0x0101010101010101)) m with
        _ | r1
      · exact ⟨rfl, rfl, rfl, rfl, fun i => ⟨i, rfl⟩, fun h => absurd rfl h⟩
      · obtain ⟨k, hk, hr⟩ := TlbProbeByteLoop_some page 1 16 _ m r1 hg1
        subst hr
        exact ⟨rfl, rfl, rfl, rfl, TlbSwapHit_slots m k,
          fun _ => ⟨k, hk, (TlbSwapHit_fst m k).symm⟩⟩
    · obtain ⟨k, hk, hr⟩ := TlbProbeByteLoop_some page 0 16 _ m r0 hg0
      subst hr
      exact ⟨rfl, rfl, rfl, rfl, TlbSwapHit_slots m k,
        fun _ => ⟨k, hk, (TlbSwapHit_fst m k).symm⟩⟩

theorem WalkPageTables_leaf (s : System) (page e t i : Nat)
    (h : WalkPageTables s page = some (e, t, i)) :
    e &&& PAGE_V ≠ 0 ∧ WalkLeaf s page = some e := by
  constructor
  · simp only [WalkPageTables] at h
    split at h
    · exact absurd h (by simp)
    · split at h
      · exact absurd h (by simp)
      · split at h
        · exact absurd h (by simp)
        · split at h
          · exact absurd h (by simp)
          · simp only [Option.some.injEq, Prod.mk.injEq] at h
            obtain ⟨he, _, _⟩ := h
            subst he
            assumption
  · simp [WalkLeaf, h]

theorem SetTlbEntry_entry (m : Machine) (i : Fin 16) (e : TlbEntry)
    (j : Fin 16) :
    (SetTlbEntry m i e).tlb.entry j = if j = i then e else m.tlb.entry j :=
  rfl

theorem tlbSound_insert (m : Machine) (i : Fin 16) (e : TlbEntry)
    (hs : tlbSound m)
    (he : e.entry ≠ 0 → canonicalPage e.page ∧
      WalkLeaf m.system e.page = some e.entry ∧ e.entry &&& PAGE_RSRV = 0) :
    tlbSound (SetTlbEntry m i e) := by
  intro j hj
  rw [SetTlbEntry_entry] at hj
  have hsys : (SetTlbEntry m i e).system = m.system := rfl
  rw [SetTlbEntry_entry, hsys]
  by_cases hij : j = i
  · rw [if_pos hij] at hj ⊢
    exact he hj
  · rw [if_neg hij] at hj ⊢
    exact hs j hj

theorem FindPageTableEntryWalk_pure (grow : System → Option Nat)
    (m : Machine) (page : Nat) (hnr : noReservedLeaf m.system) :
    (FindPageTableEntryWalk grow m page).1 = pureTransl m.system page ∧
    (FindPageTableEntryWalk grow m page).2.system = m.system ∧
    (FindPageTableEntryWalk grow m page).2.invalidated = m.invalidated ∧
    (tlbSound m → tlbSound (FindPageTableEntryWalk grow m page).2) := by
  by_cases hc : canonicalPage page
  · rcases hw : WalkPageTables m.system page with _ | ⟨e4, t4, i4⟩
    · have hleaf : WalkLeaf m.system page = none := by
        simp [WalkLeaf, hw]
      have hred : FindPageTableEntryWalk grow m page = (0, m) := by
        simp only [FindPageTableEntryWalk, hw]
        rw [if_neg (by simpa using hc)]
      rw [hred]
      refine ⟨?_, rfl, rfl, fun hs => hs⟩
      simp [pureTransl, hc, hleaf]
    · obtain ⟨hV, hleaf⟩ := WalkPageTables_leaf m.system page e4 t4 i4 hw
      have hRS : e4 &&& PAGE_RSRV = 0 := hnr page e4 hleaf
      have hred : FindPageTableEntryWalk grow m page
          = (e4, SetTlbEntry m lastSlot ⟨page, e4⟩) := by
        simp only [FindPageTableEntryWalk, hw]
        rw [if_neg (by simpa using hc), if_neg (by simp [hRS])]
      rw [hred]
      refine ⟨?_, rfl, rfl, ?_⟩
      · simp [pureTransl, hc, WalkLeaf, hw]
      · intro hs
        exact tlbSound_insert m lastSlot ⟨page, e4⟩ hs (fun _ => ⟨hc, hleaf, hRS⟩)
  · have hred : FindPageTableEntryWalk grow m page = (0, m) := by
      simp only [FindPageTableEntryWalk]
      rw [if_pos (by simpa using hc)]
    rw [hred]
    refine ⟨?_, rfl, rfl, fun hs => hs⟩
    simp [pureTransl, hc]

theorem FindPageTableEntry_pure (grow : System → Option Nat) (m : Machine)
    (page : Nat) (hs : tlbSound m) (hnr : noReservedLeaf m.system) :
    (FindPageTableEntry grow m page).1 = pureTransl m.system page ∧
    (FindPageTableEntry grow m page).2.system = m.system ∧
    tlbSound (FindPageTableEntry grow m page).2 := by
  unfold FindPageTableEntry
  by_cases hin : m.invalidated
  · rw [if_pos hin]
    have hreset : tlbSound { ResetTlb m with invalidated := false } := by
      intro i hi
      exact absurd rfl hi
    have h := FindPageTableEntryWalk_pure grow
      { ResetTlb m with invalidated := false } page hnr
    exact ⟨h.1, h.2.1, h.2.2.2 hreset⟩
  · rw [if_neg hin]
    obtain ⟨hsys, hinv, hmode, hlin, hslots, hhit⟩ := GetTlbEntry_char m page
    rcases hprobe : GetTlbEntry m page with ⟨e, m1⟩
    rw [hprobe] at hsys hinv hmode hlin hslots hhit
    simp only at hsys hinv hmode hlin hslots hhit ⊢
    have hs1 : tlbSound m1 := by
      intro i hi
      obtain ⟨j, hj⟩ := hslots i
      rw [hj] at hi ⊢
      rw [hsys]
      exact hs j hi
    by_cases he : e ≠ 0
    · rw [if_pos he]
      obtain ⟨j, hjpage, hjentry⟩ := hhit he
      obtain ⟨hcan, hleaf, _⟩ := hs j (by rw [hjentry]; exact he)
      rw [hjpage] at hcan hleaf
      rw [hjentry] at hleaf
      refine ⟨?_, hsys, hs1⟩
      rw [pureTransl, if_pos hcan, hleaf]
      rfl
    · rw [if_neg he]
      have hnr1 : noReservedLeaf m1.system := by
        rw [hsys]
        exact hnr
      have h := FindPageTableEntryWalk_pure grow m1 page hnr1
      refine ⟨?_, ?_, h.2.2.2 hs1⟩
      · rw [h.1, hsys]
      · rw [h.2.1, hsys]

theorem runTlb_pure (grow : System → Option Nat) (ps : List Nat) :
    ∀ m : Machine, tlbSound m → noReservedLeaf m.system →
      (runTlb grow m ps).1 = ps.map (pureTransl m.system) := by
  induction ps with
  | nil => intro m _ _; rfl
  | cons p ps ih =>
    intro m hs hnr
    rw [runTlb]
    obtain ⟨h1, h2, h3⟩ := FindPageTableEntry_pure grow m p hs hnr
    have hnr2 : noReservedLeaf (FindPageTableEntry grow m p).2.system := by
      rw [h2]
      exact hnr
    simp only [List.map_cons]
    rw [h1, ih (FindPageTableEntry grow m p).2 h3 hnr2, h2]

theorem runRef_pure (grow : System → Option Nat) (ps : List Nat) :
    ∀ m : Machine, noReservedLeaf m.system →
      (runRef grow m ps).1 = ps.map (pureTransl m.system) := by
  induction ps with
  | nil => intro m _; rfl
  | cons p ps ih =>
    intro m hnr
    rw [runRef]
    have hsr : tlbSound (ResetTlb m) := tlbSound_reset m
    have hrr : (ResetTlb m).system = m.system := rfl
    have hnrr : noReservedLeaf (ResetTlb m).system := hnr
    obtain ⟨h1, h2, h3⟩ :=
      FindPageTableEntry_pure grow (ResetTlb m) p hsr hnrr
    have hnr2 : noReservedLeaf
        (FindPageTableEntry grow (ResetTlb m) p).2.system := by
      rw [h2, hrr]
      exact hnr
    simp only [List.map_cons]
    rw [h1, hrr, ih (FindPageTableEntry grow (ResetTlb m) p).2 hnr2, h2, hrr]

/-- Claim C2 (amended): for every sequence of translations on a machine
with a sound TLB (for instance freshly reset) whose page tables are not
mutated between probes, and in which no walk reaches a reserved leaf (the
demand pager is never invoked), the leaf entries returned by
FindPageTableEntry with the TLB enabled equal those obtained by resetting
the TLB before every probe and walking the page tables from cr3.  The
unamended claim fails when a probe demand-pages a leaf word that doubles
as an intermediate table entry of another, already cached, page. -/
theorem FindPageTableEntry_tlb_fidelity (grow : System → Option Nat)
    (m : Machine) (ps : List Nat) (hs : tlbSound m)
    (hnr : noReservedLeaf m.system) :
    (runTlb grow m ps).1 = (runRef grow m ps).1 := by
  rw [runTlb_pure grow ps m hs hnr, runRef_pure grow ps m hnr]

/-- Witness for C2 (amended) on the baseline machine m0 (empty TLB, all
walks fail at the first level, so no reserved leaf is ever reached). -/
theorem FindPageTableEntry_tlb_fidelity_witness :
    tlbSound m0 ∧ noReservedLeaf m0.system ∧
      (runTlb (fun _ => none) m0 [0x1000, 0x2000]).1 =
        (runRef (fun _ => none) m0 [0x1000, 0x2000]).1 := by
  have hs : tlbSound m0 := fun i hi => absurd rfl hi
  have hnr : noReservedLeaf m0.system := by
    intro page e h
    have hw : WalkLeaf m0.system page = none := by
      simp [WalkLeaf, WalkPageTables, load64, m0, PAGE_V]
    rw [hw] at h
    exact absurd h (by simp)
  exact ⟨hs, hnr,
    FindPageTableEntry_tlb_fidelity (fun _ => none) m0 [0x1000, 0x2000] hs hnr⟩

/-- Concrete machine for the C2 counterexample: page tables under
cr3 = 0x1000 map virtual page 0x1000 (PML4 slot 0) down to committed leaf
0x5001, and virtual page 2^39 (PML4 slot 1) down to a leaf that is
RESERVED and whose containing leaf-table word is the PML4 entry-0 word at
arena offset 0x1000 itself (e3 = 0x1001 points the last-level table back at
the root table). -/
def mC : Machine :=
  { system :=
      { realBase := 0,
        mem := mkMem [(0x1000, 0x2201), (0x1008, 0x6001), (0x2000, 0x3001),
          (0x3000, 0x4001), (0x4008, 0x5001), (0x6000, 0x7001),
          (0x7000, 0x1001)],
        reali := 0x8000, realn := 0x10000, cr3 := 0x1000, realfree := [],
        memstat := ⟨0, 0, 0, 0, 0, 0, 0⟩ },
    tlb := emptyTlb,
    invalidated := false,
    mode := Mode.long,
    linear := none }

/-- Counterexample for C2 as stated: on machine mC the probe sequence
0x1000, 0x1000, 2^39, 0x1000 mutates no page table between probes (the
only mutation is performed inside the third probe by the demand pager,
which rewrites the aliased word 0x1000 from reserved entry 0x2201 to the
committed 0x8001), yet the TLB-enabled run still returns the stale cached
leaf 0x5001 for the final probe while the reset-before-every-probe
reference run walks the rewritten tables and returns 0 — the two runs
disagree. -/
theorem FindPageTableEntry_tlb_counterexample :
    (runTlb (fun _ => none) mC [0x1000, 0x1000, 0x8000000000, 0x1000]).1
      = [0x5001, 0x5001, 0x8001, 0x5001] ∧
    (runRef (fun _ => none) mC [0x1000, 0x1000, 0x8000000000, 0x1000]).1
      = [0x5001, 0x5001, 0x8001, 0] := by
  exact ⟨by decide, by decide⟩

/-- AppendRealFree (memorymalloc.c line 203): return a 4 KiB chunk at
arena offset `real` to the Real-Free list, extending the head chunk when
contiguous, otherwise pushing a fresh node; `mallocOk` is the oracle for
the C malloc of the node (on failure the chunk is silently dropped). -/
def AppendRealFree (mallocOk : Bool) (s : System) (real : Nat) : System :=
  match s.realfree with
  | (i0, n0) :: rest =>
      if real = (i0 + n0) % 2 ^ 64 then
        { s with realfree := (i0, (n0 + 4096) % 2 ^ 64) :: rest }
      else if mallocOk then
        { s with realfree := (real, 4096) :: (i0, n0) :: rest }
      else s
  | [] =>
      if mallocOk then { s with realfree := [(real, 4096)] } else s

/-- The inner level loop of FreeVirtual (memorymalloc.c lines 219-234):
walk from `pt` at level `i` (39, 30, 21, 12), stop at a clear V bit; at a
valid leaf (i = 12) increment memstat.freed, then either decrement
reserved (RSRV leaf) or decrement committed and return the backing to the
Real-Free list, and clear the leaf word.  Returns the final `i` (the
outer loop's stride exponent) and the updated system; four units of fuel
cover the four levels. -/
def FreeVirtualLoop (mallocOk : Bool) (s : System) (virt : Nat) :
    Nat → Nat → Nat → Nat × System
  | 0, i, _ => (i, s)
  | fuel + 1, i, pt =>
      let mi := (pt &&& PAGE_TA) + ((virt >>> i) &&& 511) * 8
      let e := MachineRead64 s mi
      if e &&& 1 = 0 then (i, s)
      else if i = 12 then
        let s1 := { s with memstat :=
          { s.memstat with freed := s.memstat.freed + 1 } }
        let s2 :=
          if e &&& PAGE_RSRV ≠ 0 then
            { s1 with memstat :=
              { s1.memstat with reserved := s1.memstat.reserved - 1 } }
          else
            AppendRealFree mallocOk
              { s1 with memstat :=
                { s1.memstat with committed := s1.memstat.committed - 1 } }
              (e &&& PAGE_TA)
        (12, MachineWrite64 s2 mi 0)
      else FreeVirtualLoop mallocOk s virt fuel (i - 9) e

/-- The outer page loop of FreeVirtual (memorymalloc.c line 218): while
virt < end (64-bit unsigned), run the level loop from cr3 and advance
virt by 2^i for the final level i; `none` on fuel exhaustion. -/
def FreeVirtualGo (mallocOk : Bool) (endv : Nat) :
    Nat → Nat → System → Option System
  | 0, _, _ => none
  | fuel + 1, virt, s =>
      if virt < endv then
        match FreeVirtualLoop mallocOk s virt 4 39 s.cr3 with
        | (i, s1) => FreeVirtualGo mallocOk endv fuel ((virt + 2 ^ i) % 2 ^ 64) s1
      else some s

/-- FreeVirtual (memorymalloc.c line 216): free every page of
[base, base + size), then reset the TLB. -/
def FreeVirtual (mallocOk : Bool) (m : Machine) (base size fuel : Nat) :
    Option Machine :=
  (FreeVirtualGo mallocOk ((base + size) % 2 ^ 64) fuel base m.system).map
    (fun s => ResetTlb { m with system := s })

/-- Claim C7 (amended): for a single page given to FreeVirtual whose leaf
entry e4 is valid, FreeVirtual clears the leaf word and increments
memstat.freed on BOTH branches (the `++freed` of memorymalloc.c line 225
runs before the RSRV test): with RSRV set it additionally decrements
reserved, leaving committed and the Real-Free list unchanged; with RSRV
clear it decrements committed and returns the backing e4 & PAGE_TA to the
Real-Free list.  The claim as stated — freed unchanged for RSRV pages,
incremented only on the committed branch — is wrong about freed. -/
theorem FreeVirtual_spec (mallocOk : Bool) (m : Machine) (virt size : Nat)
    (e1 e2 e3 e4 : Nat)
    (h0 : 0 < size) (h1 : size ≤ 4096) (h2 : virt + 4096 < 2 ^ 64)
    (he1 : MachineRead64 m.system
      ((m.system.cr3 &&& PAGE_TA) + ((virt >>> 39) &&& 511) * 8) = e1)
    (hv1 : ¬(e1 &&& 1 = 0))
    (he2 : MachineRead64 m.system
      ((e1 &&& PAGE_TA) + ((virt >>> 30) &&& 511) * 8) = e2)
    (hv2 : ¬(e2 &&& 1 = 0))
    (he3 : MachineRead64 m.system
      ((e2 &&& PAGE_TA) + ((virt >>> 21) &&& 511) * 8) = e3)
    (hv3 : ¬(e3 &&& 1 = 0))
    (he4 : MachineRead64 m.system
      ((e3 &&& PAGE_TA) + ((virt >>> 12) &&& 511) * 8) = e4)
    (hv4 : ¬(e4 &&& 1 = 0)) :
    (e4 &&& PAGE_RSRV ≠ 0 →
      FreeVirtual mallocOk m virt size 2 = some (ResetTlb { m with system :=
        (MachineWrite64
          { m.system with memstat :=
            { m.system.memstat with
              freed := m.system.memstat.freed + 1,
              reserved := m.system.memstat.reserved - 1 } }
          ((e3 &&& PAGE_TA) + ((virt >>> 12) &&& 511) * 8) 0) })) ∧
    (e4 &&& PAGE_RSRV = 0 →
      FreeVirtual mallocOk m virt size 2 = some (ResetTlb { m with system :=
        (MachineWrite64
          (AppendRealFree mallocOk
            { m.system with memstat :=
              { m.system.memstat with
                freed := m.system.memstat.freed + 1,
                committed := m.system.memstat.committed - 1 } }
            (e4 &&& PAGE_TA))
          ((e3 &&& PAGE_TA) + ((virt >>> 12) &&& 511) * 8) 0) })) := by
  have hend : (virt + size) % 2 ^ 64 = virt + size := Nat.mod_eq_of_lt (by omega)
  have hnext : (virt + 2 ^ 12) % 2 ^ 64 = virt + 4096 :=
    Nat.mod_eq_of_lt (by omega)
  have hgo : ∀ s1 : System,
      FreeVirtualGo mallocOk (virt + size) 1
        ((virt + 2 ^ 12) % 2 ^ 64) s1 = some s1 := by
    intro s1
    rw [FreeVirtualGo, hnext, if_neg (by omega)]
  constructor
  · intro hR
    rw [FreeVirtual, FreeVirtualGo, hend, if_pos (by omega)]
    have hloop : FreeVirtualLoop mallocOk m.system virt 4 39 m.system.cr3
        = (12, (MachineWrite64
            { m.system with memstat :=
              { m.system.memstat with
                freed := m.system.memstat.freed + 1,
                reserved := m.system.memstat.reserved - 1 } }
            ((e3 &&& PAGE_TA) + ((virt >>> 12) &&& 511) * 8) 0)) := by
      rw [FreeVirtualLoop]
      simp only [he1, if_neg hv1]
      rw [if_neg (by norm_num), FreeVirtualLoop]
      simp only [show (39 : Nat) - 9 = 30 from rfl, he2, if_neg hv2]
      rw [if_neg (by norm_num), FreeVirtualLoop]
      simp only [show (30 : Nat) - 9 = 21 from rfl, he3, if_neg hv3]
      rw [if_neg (by norm_num), FreeVirtualLoop]
      simp only [show (21 : Nat) - 9 = 12 from rfl, he4, if_neg hv4]
      rw [if_pos trivial]
      simp only [if_pos hR]
    rw [hloop]
    simp only [hgo]
    rfl
  · intro hR
    rw [FreeVirtual, FreeVirtualGo, hend, if_pos (by omega)]
    have hloop : FreeVirtualLoop mallocOk m.system virt 4 39 m.system.cr3
        = (12, (MachineWrite64
            (AppendRealFree mallocOk
              { m.system with memstat :=
                { m.system.memstat with
                  freed := m.system.memstat.freed + 1,
                  committed := m.system.memstat.committed - 1 } }
              (e4 &&& PAGE_TA))
            ((e3 &&& PAGE_TA) + ((virt >>> 12) &&& 511) * 8) 0)) := by
      rw [FreeVirtualLoop]
      simp only [he1, if_neg hv1]
      rw [if_neg (by norm_num), FreeVirtualLoop]
      simp only [show (39 : Nat) - 9 = 30 from rfl, he2, if_neg hv2]
      rw [if_neg (by norm_num), FreeVirtualLoop]
      simp only [show (30 : Nat) - 9 = 21 from rfl, he3, if_neg hv3]
      rw [if_neg (by norm_num), FreeVirtualLoop]
      simp only [show (21 : Nat) - 9 = 12 from rfl, he4, if_neg hv4]
      rw [if_pos trivial]
      simp only [hR, ne_eq, not_true_eq_false, if_false]
    rw [hloop]
    simp only [hgo]
    rfl

/-- Concrete machine for the C7 theorems: cr3 = 0x1000, a full valid walk
for virtual page 0 ending in the reserved leaf 0x201 (V | RSRV) stored at
arena offset 0x4000, all memstat counters zero. -/
def mR : Machine :=
  { system :=
      { realBase := 0,
        mem := mkMem [(0x1000, 0x2001), (0x2000, 0x3001), (0x3000, 0x4001),
          (0x4000, 0x201)],
        reali := 0x8000, realn := 0x10000, cr3 := 0x1000, realfree := [],
        memstat := ⟨0, 0, 0, 0, 0, 0, 0⟩ },
    tlb := emptyTlb,
    invalidated := false,
    mode := Mode.long,
    linear := none }

/-- Witness for C7 (amended) on machine mR: the reserved-leaf clause
discharged concretely (the committed clause holds vacuously since the
leaf 0x201 has RSRV set). -/
theorem FreeVirtual_spec_witness :
    ((0 : Nat) < 4096 ∧ (4096 : Nat) ≤ 4096 ∧ (0 : Nat) + 4096 < 2 ^ 64 ∧
      MachineRead64 mR.system
        ((mR.system.cr3 &&& PAGE_TA) + (((0 : Nat) >>> 39) &&& 511) * 8)
          = 0x2001 ∧
      ¬((0x2001 : Nat) &&& 1 = 0) ∧
      MachineRead64 mR.system
        (((0x2001 : Nat) &&& PAGE_TA) + (((0 : Nat) >>> 30) &&& 511) * 8)
          = 0x3001 ∧
      ¬((0x3001 : Nat) &&& 1 = 0) ∧
      MachineRead64 mR.system
        (((0x3001 : Nat) &&& PAGE_TA) + (((0 : Nat) >>> 21) &&& 511) * 8)
          = 0x4001 ∧
      ¬((0x4001 : Nat) &&& 1 = 0) ∧
      MachineRead64 mR.system
        (((0x4001 : Nat) &&& PAGE_TA) + (((0 : Nat) >>> 12) &&& 511) * 8)
          = 0x201 ∧
      ¬((0x201 : Nat) &&& 1 = 0)) ∧
    (((0x201 : Nat) &&& PAGE_RSRV ≠ 0 →
      FreeVirtual true mR 0 4096 2 = some (ResetTlb { mR with system :=
        (MachineWrite64
          { mR.system with memstat :=
            { mR.system.memstat with
              freed := mR.system.memstat.freed + 1,
              reserved := mR.system.memstat.reserved - 1 } }
          (((0x4001 : Nat) &&& PAGE_TA) + (((0 : Nat) >>> 12) &&& 511) * 8)
          0) })) ∧
    ((0x201 : Nat) &&& PAGE_RSRV = 0 →
      FreeVirtual true mR 0 4096 2 = some (ResetTlb { mR with system :=
        (MachineWrite64
          (AppendRealFree true
            { mR.system with memstat :=
              { mR.system.memstat with
                freed := mR.system.memstat.freed + 1,
                committed := mR.system.memstat.committed - 1 } }
            ((0x201 : Nat) &&& PAGE_TA))
          (((0x4001 : Nat) &&& PAGE_TA) + (((0 : Nat) >>> 12) &&& 511) * 8)
          0) }))) :=
  ⟨⟨by norm_num, by norm_num, by norm_num, by decide, by decide, by decide,
      by decide, by decide, by decide, by decide, by decide⟩,
    FreeVirtual_spec true mR 0 4096 0x2001 0x3001 0x4001 0x201
      (by norm_num) (by norm_num) (by norm_num) (by decide) (by decide)
      (by decide) (by decide) (by decide) (by decide) (by decide) (by decide)⟩

/-- Counterexample for C7 as stated: on machine mR the single page 0 has a
valid leaf with RSRV set (the three clauses after the map equation), yet
FreeVirtual leaves memstat.freed = 1, not 0: freed is incremented for the
reserved page too, contradicting the claim that freed is unchanged for
RSRV pages and incremented only on the committed branch. -/
theorem FreeVirtual_counterexample :
    (FreeVirtual true mR 0 4096 2).map
      (fun m1 => (m1.system.memstat.freed, m1.system.memstat.reserved,
        m1.system.memstat.committed))
      = some (1, -1, 0) ∧
    mR.system.memstat.freed = 0 ∧
    MachineRead64 mR.system 0x4000 &&& PAGE_V ≠ 0 ∧
    MachineRead64 mR.system 0x4000 &&& PAGE_RSRV ≠ 0 := by
  exact ⟨by decide, by decide, by decide, by decide⟩

/-- The four word addresses the four-level walk reads for `page`, computed
greedily in system `s`; used to state that guest frame writes stay clear
of the page-table words. -/
def WalkReads (s : System) (page : Nat) : List Nat :=
  let a1 := gpaD s s.cr3 + ((page >>> 39) &&& 511) * 8
  let e1 := load64 s.mem a1
  let a2 := gpaD s e1 + ((page >>> 30) &&& 511) * 8
  let e2 := load64 s.mem a2
  let a3 := gpaD s e2 + ((page >>> 21) &&& 511) * 8
  let e3 := load64 s.mem a3
  let a4 := gpaD s e3 + ((page >>> 12) &&& 511) * 8
  [a1, a2, a3, a4]

theorem load64_congr (mem mem2 : Nat → Nat) (a : Nat)
    (h : ∀ j, j < 8 → mem2 (a + j) = mem (a + j)) :
    load64 mem2 a = load64 mem a := by
  have h0 : mem2 a = mem a := by have := h 0 (by norm_num); simpa using this
  rw [load64, load64, h0, h 1 (by norm_num), h 2 (by norm_num),
    h 3 (by norm_num), h 4 (by norm_num), h 5 (by norm_num),
    h 6 (by norm_num), h 7 (by norm_num)]

theorem GetPageAddress_congr (s s2 : System) (e : Nat)
    (h : s2.realBase = s.realBase) :
    GetPageAddress s2 e = GetPageAddress s e := by
  unfold GetPageAddress
  rw [h]

theorem gpaD_congr (s s2 : System) (e : Nat) (h : s2.realBase = s.realBase) :
    gpaD s2 e = gpaD s e := by
  unfold gpaD
  rw [GetPageAddress_congr s s2 e h]

/-- Stability of the four-level walk: a system agreeing with `s` on
realBase, cr3 and on the four walked words produces the same walk. -/
theorem WalkPageTables_stable (s s2 : System) (page : Nat)
    (hrb : s2.realBase = s.realBase) (hc3 : s2.cr3 = s.cr3)
    (h : ∀ a ∈ WalkReads s page, ∀ j, j < 8 → s2.mem (a + j) = s.mem (a + j)) :
    WalkPageTables s2 page = WalkPageTables s page := by
  have hg : ∀ e, gpaD s2 e = gpaD s e := fun e => gpaD_congr s s2 e hrb
  simp only [WalkReads, List.forall_mem_cons, List.forall_mem_singleton] at h
  obtain ⟨h1, h2, h3, h4, -⟩ := h
  simp only [WalkPageTables, hg, hc3]
  rw [load64_congr _ _ _ h1]
  by_cases hv1 : load64 s.mem (gpaD s s.cr3 + ((page >>> 39) &&& 511) * 8)
      &&& PAGE_V = 0
  · rw [if_pos hv1, if_pos hv1]
  · rw [if_neg hv1, if_neg hv1, load64_congr _ _ _ h2]
    by_cases hv2 : load64 s.mem (gpaD s (load64 s.mem (gpaD s s.cr3 +
        ((page >>> 39) &&& 511) * 8)) + ((page >>> 30) &&& 511) * 8)
        &&& PAGE_V = 0
    · rw [if_pos hv2, if_pos hv2]
    · rw [if_neg hv2, if_neg hv2, load64_congr _ _ _ h3]
      by_cases hv3 : load64 s.mem (gpaD s (load64 s.mem (gpaD s (load64 s.mem
          (gpaD s s.cr3 + ((page >>> 39) &&& 511) * 8)) +
          ((page >>> 30) &&& 511) * 8)) + ((page >>> 21) &&& 511) * 8)
          &&& PAGE_V = 0
      · rw [if_pos hv3, if_pos hv3]
      · rw [if_neg hv3, if_neg hv3, load64_congr _ _ _ h4]

theorem pageMask_testBit (i : Nat) :
    pageMask.testBit i = (decide (12 ≤ i) && decide (i < 64)) := by
  have h : pageMask = (2 ^ 64 - 1) ^^^ (2 ^ 12 - 1) := by decide
  rw [h, Nat.testBit_xor, Nat.testBit_two_pow_sub_one,
    Nat.testBit_two_pow_sub_one]
  by_cases h1 : i < 12 <;> by_cases h2 : i < 64 <;>
    simp [h1, h2] <;> omega

theorem land_pageMask_eq (x : Nat) (hx : x < 2 ^ 64) :
    x &&& pageMask = x - x % 4096 := by
  have hsl : (x >>> 12) <<< 12 = x - x % 4096 := by
    rw [Nat.shiftLeft_eq, Nat.shiftRight_eq_div_pow]
    have := Nat.div_add_mod x 4096
    omega
  rw [← hsl]
  apply Nat.eq_of_testBit_eq
  intro i
  rw [Nat.testBit_and, pageMask_testBit, Nat.testBit_shiftLeft]
  rcases Nat.lt_or_ge i 12 with hi | hi
  · have h1 : ¬(12 ≤ i) := Nat.not_le.mpr hi
    simp [h1]
  · rcases Nat.lt_or_ge i 64 with hi2 | hi2
    · rw [Nat.testBit_shiftRight]
      have he : 12 + (i - 12) = i := by omega
      simp [hi, hi2, he]
    · have hx0 : x.testBit i = false := by
        apply Nat.testBit_lt_two_pow
        calc x < 2 ^ 64 := hx
        _ ≤ 2 ^ i := Nat.pow_le_pow_right (by norm_num) hi2
      rw [Nat.testBit_shiftRight]
      have he : 12 + (i - 12) = i := by omega
      simp [hx0, he]

/-- Within one page, adding an offset below the page boundary keeps the
page field and shifts the offset field. -/
theorem samePage_addr (v j : Nat) (hv : v + j < 2 ^ 64)
    (hj : v % 4096 + j < 4096) :
    (v + j) &&& pageMask = v &&& pageMask ∧
      (v + j) &&& 4095 = (v &&& 4095) + j := by
  have h1 := land_pageMask_eq v (by omega)
  have h2 := land_pageMask_eq (v + j) hv
  have h3 := land_4095_eq_mod v
  have h4 := land_4095_eq_mod (v + j)
  have hd := Nat.div_add_mod v 4096
  have hd2 := Nat.div_add_mod (v + j) 4096
  constructor <;> omega

/-- Host address of guest byte `u` under the per-page frame map `hF`. -/
def hostAddr (hF : Nat → Nat) (u : Nat) : Nat :=
  hF (u &&& pageMask) + (u &&& 4095)

/-- Pairwise disjointness of the 4 KiB frames backing a page set (rules
out the aliasing that breaks the copy round trip). -/
def framesDisjoint (PS : Nat → Prop) (hF : Nat → Nat) : Prop :=
  ∀ P Q, PS P → PS Q → P ≠ Q → hF P + 4096 ≤ hF Q ∨ hF Q + 4096 ≤ hF P

theorem hostAddr_inj (PS : Nat → Prop) (hF : Nat → Nat)
    (hdisj : framesDisjoint PS hF) (u1 u2 : Nat)
    (h1 : u1 < 2 ^ 64) (h2 : u2 < 2 ^ 64)
    (hp1 : PS (u1 &&& pageMask)) (hp2 : PS (u2 &&& pageMask))
    (hne : u1 ≠ u2) : hostAddr hF u1 ≠ hostAddr hF u2 := by
  have e1 := land_pageMask_eq u1 h1
  have e2 := land_pageMask_eq u2 h2
  have o1 := land_4095_eq_mod u1
  have o2 := land_4095_eq_mod u2
  have m1 : u1 % 4096 < 4096 := Nat.mod_lt _ (by norm_num)
  have m2 : u2 % 4096 < 4096 := Nat.mod_lt _ (by norm_num)
  unfold hostAddr
  by_cases hPQ : u1 &&& pageMask = u2 &&& pageMask
  · rw [hPQ]
    have : u1 &&& 4095 ≠ u2 &&& 4095 := by omega
    omega
  · have hd := hdisj _ _ hp1 hp2 hPQ
    omega

/-- The per-page translation data of a copy range in base system `s0`:
every page of the set is canonical, walks to the committed leaf `eF P`
backed by host frame `hF P`, and the four page-table words its walk reads
stay clear of every frame of the set (so guest stores cannot corrupt the
walks). -/
def pageSetup (s0 : System) (PS : Nat → Prop) (eF hF : Nat → Nat) : Prop :=
  ∀ P, PS P →
    canonicalPage P ∧
    WalkLeaf s0 P = some (eF P) ∧
    eF P &&& PAGE_RSRV = 0 ∧
    GetPageAddress s0 (eF P) = some (hF P) ∧
    (∀ a ∈ WalkReads s0 P, ∀ Q, PS Q → a + 8 ≤ hF Q ∨ hF Q + 4096 ≤ a)

/-- Memory agreement outside the frames of the page set. -/
def memOutside (s0 : System) (PS : Nat → Prop) (hF : Nat → Nat)
    (mem2 : Nat → Nat) : Prop :=
  ∀ a, (∀ P, PS P → a < hF P ∨ hF P + 4096 ≤ a) → mem2 a = s0.mem a

/-- TLB discipline for the copy passes: every nonzero cached slot holds a
page of the set with its setup leaf entry. -/
def tlbRange (PS : Nat → Prop) (eF : Nat → Nat) (m : Machine) : Prop :=
  ∀ i : Fin 16, (m.tlb.entry i).entry ≠ 0 →
    PS (m.tlb.entry i).page ∧
      (m.tlb.entry i).entry = eF (m.tlb.entry i).page

theorem WalkLeaf_range (s0 : System) (PS : Nat → Prop) (eF hF : Nat → Nat)
    (hsetup : pageSetup s0 PS eF hF) (s : System) (P : Nat)
    (hrb : s.realBase = s0.realBase) (hc3 : s.cr3 = s0.cr3)
    (hmo : memOutside s0 PS hF s.mem) (hP : PS P) :
    WalkLeaf s P = some (eF P) := by
  obtain ⟨hcan, hleaf, hrsrv, hgpa, hwr⟩ := hsetup P hP
  have hstable : WalkPageTables s P = WalkPageTables s0 P := by
    apply WalkPageTables_stable s0 s P hrb hc3
    intro a ha j hj
    apply hmo
    intro Q hQ
    rcases hwr a ha Q hQ with hlt | hge
    · left
      omega
    · right
      omega
  unfold WalkLeaf at hleaf ⊢
  rw [hstable]
  exact hleaf

theorem eF_ne_zero (s0 : System) (PS : Nat → Prop) (eF hF : Nat → Nat)
    (hsetup : pageSetup s0 PS eF hF) (P : Nat) (hP : PS P) : eF P ≠ 0 := by
  obtain ⟨-, hleaf, -, -, -⟩ := hsetup P hP
  rcases hw : WalkPageTables s0 P with _ | ⟨e, t, i⟩
  · rw [WalkLeaf, hw] at hleaf
    exact absurd hleaf (by simp)
  · rw [WalkLeaf, hw] at hleaf
    obtain ⟨hV, -⟩ := WalkPageTables_leaf s0 P e t i hw
    have he : e = eF P := by simpa using hleaf
    intro h0
    rw [he, h0] at hV
    exact hV (by decide)

theorem tlbRange_insert (PS : Nat → Prop) (eF : Nat → Nat) (m : Machine)
    (i : Fin 16) (e : TlbEntry) (ht : tlbRange PS eF m)
    (he : e.entry ≠ 0 → PS e.page ∧ e.entry = eF e.page) :
    tlbRange PS eF (SetTlbEntry m i e) := by
  intro j hj
  rw [SetTlbEntry_entry] at hj ⊢
  by_cases hij : j = i
  · rw [if_pos hij] at hj ⊢
    exact he hj
  · rw [if_neg hij] at hj ⊢
    exact ht j hj

/-- Ranged characterization of FindPageTableEntry: on a machine whose TLB
caches only set pages, a probe of a set page returns the setup leaf and
preserves the system and the TLB discipline. -/
theorem FindPageTableEntry_range (grow : System → Option Nat)
    (s0 : System) (PS : Nat → Prop) (eF hF : Nat → Nat)
    (hsetup : pageSetup s0 PS eF hF) (m : Machine) (P : Nat)
    (hrb : m.system.realBase = s0.realBase) (hc3 : m.system.cr3 = s0.cr3)
    (hmo : memOutside s0 PS hF m.system.mem)
    (htlb : tlbRange PS eF m) (hinv : m.invalidated = false) (hP : PS P) :
    (FindPageTableEntry grow m P).1 = eF P ∧
    (FindPageTableEntry grow m P).2.system = m.system ∧
    (FindPageTableEntry grow m P).2.invalidated = false ∧
    (FindPageTableEntry grow m P).2.mode = m.mode ∧
    (FindPageTableEntry grow m P).2.linear = m.linear ∧
    tlbRange PS eF (FindPageTableEntry grow m P).2 := by
  have hwalk : WalkLeaf m.system P = some (eF P) :=
    WalkLeaf_range s0 PS eF hF hsetup m.system P hrb hc3 hmo hP
  obtain ⟨hcan, -, hrsrv, -, -⟩ := hsetup P hP
  have hin : ¬m.invalidated := by simp [hinv]
  unfold FindPageTableEntry
  rw [if_neg hin]
  obtain ⟨hsys, hinv2, hmode2, hlin2, hslots, hhit⟩ := GetTlbEntry_char m P
  rcases hprobe : GetTlbEntry m P with ⟨e, m1⟩
  rw [hprobe] at hsys hinv2 hmode2 hlin2 hslots hhit
  simp only at hsys hinv2 hmode2 hlin2 hslots hhit ⊢
  have ht1 : tlbRange PS eF m1 := by
    intro i hi
    obtain ⟨j, hj⟩ := hslots i
    rw [hj] at hi ⊢
    exact htlb j hi
  by_cases he : e ≠ 0
  · rw [if_pos he]
    obtain ⟨j, hjpage, hjentry⟩ := hhit he
    obtain ⟨hPj, hej⟩ := htlb j (by rw [hjentry]; exact he)
    refine ⟨?_, hsys, hinv2.trans hinv, hmode2, hlin2, ht1⟩
    rw [← hjentry, hej, hjpage]
  · rw [if_neg he]
    have hw1 : WalkLeaf m1.system P = some (eF P) := by
      rw [hsys]
      exact hwalk
    rcases hwp : WalkPageTables m1.system P with _ | ⟨e4, t4, i4⟩
    · rw [WalkLeaf, hwp] at hw1
      exact absurd hw1 (by simp)
    · have he4 : e4 = eF P := by
        rw [WalkLeaf, hwp] at hw1
        simpa using hw1
      have hred : FindPageTableEntryWalk grow m1 P
          = (eF P, SetTlbEntry m1 lastSlot ⟨P, eF P⟩) := by
        simp only [FindPageTableEntryWalk, hwp]
        rw [if_neg (by simpa using hcan), if_neg (by simp [he4, hrsrv]), he4]
      rw [hred]
      exact ⟨rfl, hsys, hinv2.trans hinv, hmode2, hlin2,
        tlbRange_insert PS eF m1 lastSlot ⟨P, eF P⟩ ht1 (fun _ => ⟨hP, rfl⟩)⟩

/-- Ranged characterization of ResolveAddress: a set page's byte resolves
to its frame's host address plus the page offset, without touching the
system. -/
theorem ResolveAddress_range (grow : System → Option Nat)
    (s0 : System) (PS : Nat → Prop) (eF hF : Nat → Nat)
    (hsetup : pageSetup s0 PS eF hF) (m : Machine) (v : Nat)
    (hrb : m.system.realBase = s0.realBase) (hc3 : m.system.cr3 = s0.cr3)
    (hmo : memOutside s0 PS hF m.system.mem)
    (htlb : tlbRange PS eF m) (hinv : m.invalidated = false)
    (hmode : m.mode ≠ Mode.real) (hlin : m.linear = none)
    (hPv : PS (v &&& pageMask)) :
    (ResolveAddress grow m v).1
      = some (hF (v &&& pageMask) + (v &&& 4095)) ∧
    (ResolveAddress grow m v).2.system = m.system ∧
    (ResolveAddress grow m v).2.invalidated = false ∧
    (ResolveAddress grow m v).2.mode = m.mode ∧
    (ResolveAddress grow m v).2.linear = m.linear ∧
    tlbRange PS eF (ResolveAddress grow m v).2 := by
  obtain ⟨h1, h2, h3, h4, h5, h6⟩ := FindPageTableEntry_range grow s0 PS eF hF
    hsetup m (v &&& pageMask) hrb hc3 hmo htlb hinv hPv
  have hne : eF (v &&& pageMask) ≠ 0 := eF_ne_zero s0 PS eF hF hsetup _ hPv
  obtain ⟨-, -, -, hgpa, -⟩ := hsetup _ hPv
  unfold ResolveAddress GetAddress
  simp only [hlin]
  unfold LookupAddress
  rw [if_pos hmode]
  rcases hfp : FindPageTableEntry grow m (v &&& pageMask) with ⟨e, m2⟩
  rw [hfp] at h1 h2 h3 h4 h5 h6
  simp only at h1 h2 h3 h4 h5 h6 ⊢
  rw [if_neg (by rw [h1]; exact hne)]
  have hg : GetPageAddress m2.system e = some (hF (v &&& pageMask)) := by
    rw [GetPageAddress_congr s0 m2.system e (by rw [h2, hrb]), h1]
    exact hgpa
  rw [hg]
  exact ⟨rfl, h2, h3, h4, h5.trans hlin, h6⟩

/-- VirtualCopy (memory.c line 198) as a fuel-driven loop.  The buffer is
a host byte function `r` with running offset `ro` (C advances the `r`
pointer); `d` selects the direction (true: guest to buffer, false: buffer
to guest); `k` is the running chunk bound (page remainder on entry, 4096
afterwards); the resolved pointer `pm.1` of `p = ResolveAddress(m, v)`
and the possibly TLB-promoted machine `pm.2` come from one call; a null
resolution (guest segfault, which does not return) is `none`, as is fuel
exhaustion (never reached from the wrappers). -/
def VirtualCopyGo (grow : System → Option Nat) (d : Bool) :
    Nat → Machine → Nat → (Nat → Nat) → Nat → Nat → Nat →
    Option ((Nat → Nat) × Machine)
  | 0, _, _, _, _, _, _ => none
  | fuel + 1, m, v, r, ro, n, k =>
      if n = 0 then some (r, m)
      else
        let k1 := min k n
        let pm := ResolveAddress grow m v
        match pm.1 with
        | none => none
        | some p =>
            if d then
              VirtualCopyGo grow d fuel pm.2 ((v + k1) % 2 ^ 64)
                (readBytes r ro pm.2.system.mem p k1) (ro + k1) (n - k1) 4096
            else
              VirtualCopyGo grow d fuel
                { pm.2 with system :=
                  { pm.2.system with
                    mem := copyBytes pm.2.system.mem p r ro k1 } }
                ((v + k1) % 2 ^ 64) r (ro + k1) (n - k1) 4096

/-- VirtualCopy's entry: the initial chunk bound is the distance to the
next page boundary, `k = 4096 - (v & 4095)`. -/
def VirtualCopy (grow : System → Option Nat) (m : Machine) (v : Nat)
    (r : Nat → Nat) (n : Nat) (d : Bool) (fuel : Nat) :
    Option ((Nat → Nat) × Machine) :=
  VirtualCopyGo grow d fuel m v r 0 n (4096 - (v &&& 4095))

/-- CopyToUser (memory.c line 226): write `n` buffer bytes to guest
address `dst`. -/
def CopyToUser (grow : System → Option Nat) (m : Machine) (dst : Nat)
    (src : Nat → Nat) (n fuel : Nat) : Option Machine :=
  (VirtualCopy grow m dst src n false fuel).map (fun rm => rm.2)

/-- CopyFromUser (memory.c line 217): read `n` guest bytes at `src` into
the buffer. -/
def CopyFromUser (grow : System → Option Nat) (m : Machine)
    (dst : Nat → Nat) (src : Nat) (n fuel : Nat) :
    Option ((Nat → Nat) × Machine) :=
  VirtualCopy grow m src dst n true fuel

/-- The write pass (d = false): under the page setup, frame disjointness
and the TLB discipline, the loop succeeds, writes byte `ro + j` of the
buffer to the host address of guest byte `v + j` (mod 256) for every
j < n, touches no other byte, and preserves every invariant. -/
theorem VirtualCopyGo_write (grow : System → Option Nat)
    (s0 : System) (PS : Nat → Prop) (eF hF : Nat → Nat)
    (hsetup : pageSetup s0 PS eF hF) (hdisj : framesDisjoint PS hF) :
    ∀ fuel n v ro k src m,
      n < fuel →
      (n ≠ 0 → k = 4096 - (v &&& 4095)) →
      v + n < 2 ^ 64 →
      (∀ j, j < n → PS ((v + j) &&& pageMask)) →
      m.system.realBase = s0.realBase → m.system.cr3 = s0.cr3 →
      memOutside s0 PS hF m.system.mem →
      tlbRange PS eF m →
      m.invalidated = false → m.mode ≠ Mode.real → m.linear = none →
      ∃ m1, VirtualCopyGo grow false fuel m v src ro n k = some (src, m1) ∧
        m1.system.realBase = s0.realBase ∧ m1.system.cr3 = s0.cr3 ∧
        memOutside s0 PS hF m1.system.mem ∧
        tlbRange PS eF m1 ∧
        m1.invalidated = false ∧ m1.mode = m.mode ∧ m1.linear = none ∧
        (∀ j, j < n →
          m1.system.mem (hostAddr hF (v + j)) = src (ro + j) % 256) ∧
        (∀ a, (∀ j, j < n → a ≠ hostAddr hF (v + j)) →
          m1.system.mem a = m.system.mem a) := by
  intro fuel
  induction fuel with
  | zero =>
    intro n v ro k src m hfuel
    omega
  | succ fuel ih =>
    intro n v ro k src m hfuel hk hwrap hpages hrb hc3 hmo htlb hinv hmode hlin
    rw [VirtualCopyGo]
    by_cases hn : n = 0
    · subst hn
      rw [if_pos rfl]
      exact ⟨m, rfl, hrb, hc3, hmo, htlb, hinv, rfl, hlin,
        fun j hj => absurd hj (by omega), fun a _ => rfl⟩
    · rw [if_neg hn]
      have hkk := hk hn
      have hv4 : v &&& 4095 = v % 4096 := land_4095_eq_mod v
      have hvlt : v % 4096 < 4096 := Nat.mod_lt _ (by norm_num)
      have hP0 : PS (v &&& pageMask) := by
        have h := hpages 0 (by omega)
        simpa using h
      obtain ⟨r1, r2, r3, r4, r5, r6⟩ := ResolveAddress_range grow s0 PS eF hF
        hsetup m v hrb hc3 hmo htlb hinv hmode hlin hP0
      simp only [r1, Bool.false_eq_true, if_false]
      have hK1 : 1 ≤ min k n := by omega
      have hKk : min k n ≤ 4096 - v % 4096 := by omega
      have hmod : (v + min k n) % 2 ^ 64 = v + min k n :=
        Nat.mod_eq_of_lt (by omega)
      rw [hmod]
      have hmem2 : (ResolveAddress grow m v).2.system.mem = m.system.mem :=
        congrArg System.mem r2
      -- the host pointer of this chunk, and its page geometry
      have hpj : ∀ j, j < min k n →
          hostAddr hF (v + j)
            = hF (v &&& pageMask) + (v &&& 4095) + j := by
        intro j hj
        obtain ⟨hpg, hof⟩ := samePage_addr v j (by omega) (by omega)
        rw [hostAddr, hpg, hof, Nat.add_assoc]
      obtain ⟨m1, hrun, q1, q2, q3, q4, q5, q6, q7, q8, q9⟩ :=
        ih (n - min k n) (v + min k n) (ro + min k n) 4096 src
          { (ResolveAddress grow m v).2 with system :=
            { (ResolveAddress grow m v).2.system with
              mem := copyBytes (ResolveAddress grow m v).2.system.mem
                (hF (v &&& pageMask) + (v &&& 4095)) src ro (min k n) } }
          (by omega)
          (by
            intro hn2
            have hKn : min k n = k := by omega
            have h0 : (v + min k n) &&& 4095 = 0 := by
              rw [land_4095_eq_mod]
              omega
            omega)
          (by omega)
          (by
            intro j hj
            have h := hpages (min k n + j) (by omega)
            rw [← Nat.add_assoc] at h
            exact h)
          ((congrArg System.realBase r2).trans hrb)
          ((congrArg System.cr3 r2).trans hc3)
          (by
            intro a ha
            show copyBytes (ResolveAddress grow m v).2.system.mem
              (hF (v &&& pageMask) + (v &&& 4095)) src ro (min k n) a
                = s0.mem a
            rw [copyBytes]
            rw [if_neg (by
              intro hcon
              rcases ha _ hP0 with hlt | hge <;> omega)]
            rw [hmem2]
            exact hmo a ha)
          (fun i hi => r6 i hi)
          r3
          (fun h => hmode (r4.symm.trans h))
          (r5.trans hlin)
      refine ⟨m1, hrun, q1, q2, q3, q4, q5, q6.trans r4, q7, ?_, ?_⟩
      · intro j hj
        rcases Nat.lt_or_ge j (min k n) with hjK | hjK
        · have hne : ∀ j2, j2 < n - min k n →
              hostAddr hF (v + j) ≠ hostAddr hF (v + min k n + j2) := by
            intro j2 hj2
            apply hostAddr_inj PS hF hdisj (v + j) (v + min k n + j2)
              (by omega) (by omega) (hpages j (by omega))
              (by
                have h := hpages (min k n + j2) (by omega)
                rw [← Nat.add_assoc] at h
                exact h)
              (by omega)
          have hstep := q9 (hostAddr hF (v + j)) hne
          rw [hstep]
          show copyBytes (ResolveAddress grow m v).2.system.mem
            (hF (v &&& pageMask) + (v &&& 4095)) src ro (min k n)
              (hostAddr hF (v + j)) = src (ro + j) % 256
          rw [hpj j hjK, copyBytes]
          rw [if_pos (by omega)]
          have hix : hF (v &&& pageMask) + (v &&& 4095) + j
              - (hF (v &&& pageMask) + (v &&& 4095)) = j := by omega
          rw [hix]
        · have h := q8 (j - min k n) (by omega)
          have he1 : v + min k n + (j - min k n) = v + j := by omega
          have he2 : ro + min k n + (j - min k n) = ro + j := by omega
          rw [he1, he2] at h
          exact h
      · intro a ha
        have hstep := q9 a (by
          intro j2 hj2
          have h := ha (min k n + j2) (by omega)
          rw [← Nat.add_assoc] at h
          exact h)
        rw [hstep]
        show copyBytes (ResolveAddress grow m v).2.system.mem
          (hF (v &&& pageMask) + (v &&& 4095)) src ro (min k n) a
            = m.system.mem a
        rw [copyBytes]
        rw [if_neg (by
          intro hcon
          have hj : a - (hF (v &&& pageMask) + (v &&& 4095)) < min k n := by
            omega
          have := ha (a - (hF (v &&& pageMask) + (v &&& 4095))) (by omega)
          rw [hpj _ hj] at this
          omega)]
        rw [hmem2]

/-- The read pass (d = true): the loop succeeds without touching the
system, and fills buffer byte `ro + j` with the byte at the host address
of guest byte `v + j` (mod 256) for every j < n, leaving buffer entries
below `ro` unchanged. -/
theorem VirtualCopyGo_read (grow : System → Option Nat)
    (s0 : System) (PS : Nat → Prop) (eF hF : Nat → Nat)
    (hsetup : pageSetup s0 PS eF hF) :
    ∀ fuel n v ro k r m,
      n < fuel →
      (n ≠ 0 → k = 4096 - (v &&& 4095)) →
      v + n < 2 ^ 64 →
      (∀ j, j < n → PS ((v + j) &&& pageMask)) →
      m.system.realBase = s0.realBase → m.system.cr3 = s0.cr3 →
      memOutside s0 PS hF m.system.mem →
      tlbRange PS eF m →
      m.invalidated = false → m.mode ≠ Mode.real → m.linear = none →
      ∃ r1 m1, VirtualCopyGo grow true fuel m v r ro n k = some (r1, m1) ∧
        m1.system = m.system ∧
        (∀ j, j < n →
          r1 (ro + j) = m.system.mem (hostAddr hF (v + j)) % 256) ∧
        (∀ j, j < ro → r1 j = r j) := by
  intro fuel
  induction fuel with
  | zero =>
    intro n v ro k r m hfuel
    omega
  | succ fuel ih =>
    intro n v ro k r m hfuel hk hwrap hpages hrb hc3 hmo htlb hinv hmode hlin
    rw [VirtualCopyGo]
    by_cases hn : n = 0
    · subst hn
      rw [if_pos rfl]
      exact ⟨r, m, rfl, rfl, fun j hj => absurd hj (by omega), fun j _ => rfl⟩
    · rw [if_neg hn]
      have hkk := hk hn
      have hv4 : v &&& 4095 = v % 4096 := land_4095_eq_mod v
      have hvlt : v % 4096 < 4096 := Nat.mod_lt _ (by norm_num)
      have hP0 : PS (v &&& pageMask) := by
        have h := hpages 0 (by omega)
        simpa using h
      obtain ⟨r1, r2, r3, r4, r5, r6⟩ := ResolveAddress_range grow s0 PS eF hF
        hsetup m v hrb hc3 hmo htlb hinv hmode hlin hP0
      simp only [r1, if_true]
      have hK1 : 1 ≤ min k n := by omega
      have hKk : min k n ≤ 4096 - v % 4096 := by omega
      have hmod : (v + min k n) % 2 ^ 64 = v + min k n :=
        Nat.mod_eq_of_lt (by omega)
      rw [hmod]
      have hmem2 : (ResolveAddress grow m v).2.system.mem = m.system.mem :=
        congrArg System.mem r2
      have hpj : ∀ j, j < min k n →
          hostAddr hF (v + j)
            = hF (v &&& pageMask) + (v &&& 4095) + j := by
        intro j hj
        obtain ⟨hpg, hof⟩ := samePage_addr v j (by omega) (by omega)
        rw [hostAddr, hpg, hof, Nat.add_assoc]
      obtain ⟨rB, m1, hrun, q1, q2, q3⟩ :=
        ih (n - min k n) (v + min k n) (ro + min k n) 4096
          (readBytes r ro (ResolveAddress grow m v).2.system.mem
            (hF (v &&& pageMask) + (v &&& 4095)) (min k n))
          (ResolveAddress grow m v).2
          (by omega)
          (by
            intro hn2
            have hKn : min k n = k := by omega
            have h0 : (v + min k n) &&& 4095 = 0 := by
              rw [land_4095_eq_mod]
              omega
            omega)
          (by omega)
          (by
            intro j hj
            have h := hpages (min k n + j) (by omega)
            rw [← Nat.add_assoc] at h
            exact h)
          ((congrArg System.realBase r2).trans hrb)
          ((congrArg System.cr3 r2).trans hc3)
          (by
            intro a ha
            rw [hmem2]
            exact hmo a ha)
          (fun i hi => r6 i hi)
          r3
          (fun h => hmode (r4.symm.trans h))
          (r5.trans hlin)
      refine ⟨rB, m1, hrun, q1.trans r2, ?_, ?_⟩
      · intro j hj
        rcases Nat.lt_or_ge j (min k n) with hjK | hjK
        · have hstay := q3 (ro + j) (by omega)
          rw [hstay, readBytes]
          rw [if_pos (by omega)]
          have hix : ro + j - ro = j := by omega
          rw [hix, hmem2, hpj j hjK]
        · have h := q2 (j - min k n) (by omega)
          have he1 : v + min k n + (j - min k n) = v + j := by omega
          have he2 : ro + min k n + (j - min k n) = ro + j := by omega
          rw [he1, he2] at h
          rw [h, hmem2]
      · intro j hj
        have hstay := q3 j (by omega)
        rw [hstay, readBytes]
        rw [if_neg (by omega)]

/-- Claim C5 (amended): for every buffer src and guest address v of any
alignment such that every page of [v, v + n) is canonical and walks to a
committed leaf backed by a host frame, PROVIDED the frames of distinct
pages are pairwise disjoint and no frame overlaps the page-table words
those walks read (and the machine's TLB caches only such pages, paging is
on and no linear shortcut is configured), CopyToUser(m, v, src, n)
followed by CopyFromUser(m1, dst, v, n) yields a buffer bitwise equal to
src on its n bytes.  The unamended claim (resolution of every page alone)
is false: two virtual pages aliased to one host frame make the second
page's write pass clobber the first page's bytes before the read pass. -/
theorem CopyToUser_CopyFromUser_roundtrip (grow : System → Option Nat)
    (m : Machine) (v n : Nat) (src dst : Nat → Nat)
    (PS : Nat → Prop) (eF hF : Nat → Nat)
    (hsetup : pageSetup m.system PS eF hF)
    (hdisj : framesDisjoint PS hF)
    (htlb : tlbRange PS eF m)
    (hinv : m.invalidated = false) (hmode : m.mode ≠ Mode.real)
    (hlin : m.linear = none)
    (hwrap : v + n < 2 ^ 64)
    (hpages : ∀ j, j < n → PS ((v + j) &&& pageMask))
    (hsrc : ∀ j, j < n → src j < 256) :
    ∃ m1, CopyToUser grow m v src n (n + 1) = some m1 ∧
      ∃ r1 m2, CopyFromUser grow m1 dst v n (n + 1) = some (r1, m2) ∧
        ∀ j, j < n → r1 j = src j := by
  have hmo0 : memOutside m.system PS hF m.system.mem := fun a _ => rfl
  obtain ⟨m1, hrun1, w1, w2, w3, w4, w5, w6, w7, w8, w9⟩ :=
    VirtualCopyGo_write grow m.system PS eF hF hsetup hdisj (n + 1) n v 0
      (4096 - (v &&& 4095)) src m (by omega) (fun _ => rfl) hwrap hpages
      rfl rfl hmo0 htlb hinv hmode hlin
  refine ⟨m1, ?_, ?_⟩
  · simp only [CopyToUser, VirtualCopy]
    rw [hrun1]
    rfl
  · obtain ⟨r1, m2, hrun2, s1, s2, s3⟩ :=
      VirtualCopyGo_read grow m.system PS eF hF hsetup (n + 1) n v 0
        (4096 - (v &&& 4095)) dst m1 (by omega) (fun _ => rfl) hwrap hpages
        w1 w2 w3 w4 w5 (by rw [w6]; exact hmode) w7
    refine ⟨r1, m2, ?_, ?_⟩
    · simp only [CopyFromUser, VirtualCopy]
      exact hrun2
    · intro j hj
      have hsj := hsrc j hj
      have h := s2 j hj
      rw [w8 j hj] at h
      rw [Nat.zero_add] at h
      rw [h, Nat.mod_eq_of_lt hsj, Nat.mod_eq_of_lt hsj]

/-- Concrete machine for the C5 witness: cr3 = 0x1000, virtual page 0
walks through tables at 0x1000/0x2000/0x3000/0x4000 to the committed leaf
0x5001 backed by host frame 0x5000, which is disjoint from all four table
words. -/
def mW : Machine :=
  { system :=
      { realBase := 0,
        mem := mkMem [(0x1000, 0x2001), (0x2000, 0x3001), (0x3000, 0x4001),
          (0x4000, 0x5001)],
        reali := 0x8000, realn := 0x10000, cr3 := 0x1000, realfree := [],
        memstat := ⟨0, 0, 0, 0, 0, 0, 0⟩ },
    tlb := emptyTlb,
    invalidated := false,
    mode := Mode.long,
    linear := none }

/-- Witness for C5 (amended) on machine mW: an 8-byte round trip through
page 0, all hypotheses discharged concretely. -/
theorem CopyToUser_CopyFromUser_roundtrip_witness :
    (pageSetup mW.system (fun P => P = 0) (fun _ => 0x5001)
        (fun _ => 0x5000) ∧
      framesDisjoint (fun P => P = 0) (fun _ => 0x5000) ∧
      tlbRange (fun P => P = 0) (fun _ => 0x5001) mW ∧
      mW.invalidated = false ∧ mW.mode ≠ Mode.real ∧ mW.linear = none ∧
      (0 : Nat) + 8 < 2 ^ 64 ∧
      (∀ j, j < 8 → ((0 : Nat) + j) &&& pageMask = 0) ∧
      (∀ j, j < 8 → b0 j < 256)) ∧
    (∃ m1, CopyToUser (fun _ => none) mW 0 b0 8 (8 + 1) = some m1 ∧
      ∃ r1 m2, CopyFromUser (fun _ => none) m1 (fun _ => 0) 0 8 (8 + 1)
          = some (r1, m2) ∧
        ∀ j, j < 8 → r1 j = b0 j) := by
  have hsetup : pageSetup mW.system (fun P => P = 0) (fun _ => 0x5001)
      (fun _ => 0x5000) := by
    intro P hP
    subst hP
    refine ⟨by decide, by decide, by decide, by decide, ?_⟩
    intro a ha Q hQ
    rw [show WalkReads mW.system 0 = [0x1000, 0x2000, 0x3000, 0x4000]
      from by decide] at ha
    simp only [List.mem_cons, List.not_mem_nil, or_false] at ha
    rcases ha with rfl | rfl | rfl | rfl <;> left <;> norm_num
  have hdisj : framesDisjoint (fun P => P = 0) (fun _ => 0x5000) :=
    fun P Q hP hQ hne => absurd (hP.trans hQ.symm) hne
  have htlb : tlbRange (fun P => P = 0) (fun _ => 0x5001) mW :=
    fun i hi => absurd rfl hi
  have hpages : ∀ j, j < 8 → ((0 : Nat) + j) &&& pageMask = 0 := by decide
  have hsrc : ∀ j, j < 8 → b0 j < 256 := by decide
  exact ⟨⟨hsetup, hdisj, htlb, rfl, by decide, rfl, by decide, hpages, hsrc⟩,
    CopyToUser_CopyFromUser_roundtrip (fun _ => none) mW 0 8 b0 (fun _ => 0)
      (fun P => P = 0) (fun _ => 0x5001) (fun _ => 0x5000)
      hsetup hdisj htlb rfl (by decide) rfl (by decide) hpages hsrc⟩

/-- Concrete machine for the C5 counterexample: virtual pages 0 and
0x1000 both walk to leaf 0x5001, i.e. alias the same host frame 0x5000
(leaf-table words at 0x4000 and 0x4008 hold the same entry). -/
def mX : Machine :=
  { system :=
      { realBase := 0,
        mem := mkMem [(0x1000, 0x2001), (0x2000, 0x3001), (0x3000, 0x4001),
          (0x4000, 0x5001), (0x4008, 0x5001)],
        reali := 0x8000, realn := 0x10000, cr3 := 0x1000, realfree := [],
        memstat := ⟨0, 0, 0, 0, 0, 0, 0⟩ },
    tlb := emptyTlb,
    invalidated := false,
    mode := Mode.long,
    linear := none }

/-- Source buffer for the C5 counterexample: page-0 bytes are 1, page-1
bytes are 2. -/
def srcX : Nat → Nat :=
  fun j => if j < 4096 then 1 else 2

/-- Counterexample for C5 as stated: on machine mX both pages of
[0, 8192) resolve to host pointers (both to frame 0x5000), yet writing
srcX with CopyToUser and reading back with CopyFromUser returns 2 at
offset 0 where srcX holds 1 — the aliased second page overwrote the
first page's bytes, so resolution of every page alone does not give the
round trip. -/
theorem CopyToUser_CopyFromUser_counterexample :
    (ResolveAddress (fun _ => none) mX 0).1 = some 0x5000 ∧
    (ResolveAddress (fun _ => none) mX 0x1000).1 = some 0x5000 ∧
    ((CopyToUser (fun _ => none) mX 0 srcX 8192 3).bind (fun m1 =>
      (CopyFromUser (fun _ => none) m1 b0 0 8192 3).map
        (fun rm => rm.1 0))) = some 2 ∧
    srcX 0 = 1 := by
  exact ⟨by decide, by decide, by decide, by decide⟩

/-- ResetMem (memorymalloc.c line 64): drop the Real-Free list, reset the
TLB, zero the memstat block, rewind the arena watermark and clear cr3
(the state NewMachine hands out). -/
def ResetMem (m : Machine) : Machine :=
  ResetTlb { m with system :=
    { m.system with
      realfree := [],
      reali := 0,
      cr3 := 0,
      memstat := ⟨0, 0, 0, 0, 0, 0, 0⟩ } }

/-- ReserveReal (memorymalloc.c line 137): grow arena capacity to at
least n through the realloc oracle, copying the old contents to the new
base and resetting the TLB on success; the Bool is false for the C
return value -1. -/
def ReserveReal (grow : System → Option Nat) (m : Machine) (n : Nat) :
    Machine × Bool :=
  if m.system.realn < n then
    match grow m.system with
    | none => (m, false)
    | some b =>
        let s := m.system
        let copied : Nat → Nat := fun a =>
          if b ≤ a ∧ a < b + min s.realn n then s.mem (s.realBase + (a - b))
          else s.mem a
        (ResetTlb { m with system :=
          { s with
            realBase := b,
            mem := copied,
            realn := n,
            memstat :=
              { s.memstat with resizes := s.memstat.resizes + 1 } } }, true)
  else (m, true)

/-- One level > 12 iteration of ReserveVirtual (memorymalloc.c lines
156-167): read the entry at this level, allocating (and linking with
flags 7) a fresh page table when the V bit is clear; returns the value
the C loop variable pt carries to the next level, `none` when the
allocation fails (the C return -1, with the machine unchanged by the
failing call). -/
def RVStep (grow : System → Option Nat) (m : Machine)
    (virt pt level : Nat) : Option (Nat × Machine) :=
  let mi := ((pt &&& PAGE_TA) &&& PAGE_TA) + ((virt >>> level) &&& 511) * 8
  let e := MachineRead64 m.system mi
  if e &&& 1 = 0 then
    match AllocateLinearPage grow m with
    | none => none
    | some (page, m1) =>
        let s1 := MachineWrite64 m1.system mi (page ||| 7)
        some (page, { m1 with system :=
          { s1 with memstat :=
            { s1.memstat with
              pagetables := s1.memstat.pagetables + 1 } } })
  else some (e, m)

/-- The leaf slot loop of ReserveVirtual (memorymalloc.c lines 169-177):
write `key` into every V-clear slot (counting it reserved), advance virt
by 4096 with the signed `(virt += 4096) >= end` exit, and break out of
the table at slot 512.  Returns the machine, the advanced virt, and true
when the exit (C return 0) was taken; 512 units of fuel cover any run. -/
def RVLeaf (endv key : Nat) :
    Nat → Machine → Nat → Nat → Nat → Nat → Option (Machine × Nat × Bool)
  | 0, _, _, _, _, _ => none
  | fuel + 1, m, virt, ti, mi, pt =>
      let m1 := if pt &&& 1 = 0 then
          let s1 := MachineWrite64 m.system mi key
          { m with system :=
            { s1 with memstat :=
              { s1.memstat with reserved := s1.memstat.reserved + 1 } } }
        else m
      let virt1 := (virt + 4096) % 2 ^ 64
      if toI64 endv ≤ toI64 virt1 then some (m1, virt1, true)
      else if ti + 1 = 512 then some (m1, virt1, false)
      else RVLeaf endv key fuel m1 virt1 (ti + 1) (mi + 8)
        (MachineRead64 m1.system (mi + 8))

/-- The outer loop of ReserveVirtual (memorymalloc.c line 155): walk
levels 39, 30, 21 (allocating missing tables), then run the leaf loop;
on its break continue from the advanced virt.  The Bool is false for the
C return -1 (allocation failure). -/
def ReserveVirtualGo (grow : System → Option Nat) (endv key : Nat) :
    Nat → Machine → Nat → Option (Machine × Bool)
  | 0, _, _ => none
  | fuel + 1, m, virt =>
      match RVStep grow m virt m.system.cr3 39 with
      | none => some (m, false)
      | some (pt1, m1) =>
          match RVStep grow m1 virt pt1 30 with
          | none => some (m1, false)
          | some (pt2, m2) =>
              match RVStep grow m2 virt pt2 21 with
              | none => some (m2, false)
              | some (pt3, m3) =>
                  let ti := (virt >>> 12) &&& 511
                  let mi := ((pt3 &&& PAGE_TA) &&& PAGE_TA) + ti * 8
                  let pt := MachineRead64 m3.system mi
                  match RVLeaf endv key 512 m3 virt ti mi pt with
                  | none => none
                  | some (m4, _, true) => some (m4, true)
                  | some (m4, virt1, false) =>
                      ReserveVirtualGo grow endv key fuel m4 virt1

/-- ReserveVirtual (memorymalloc.c line 153): end = virt + size in 64-bit
wrap-around. -/
def ReserveVirtual (grow : System → Option Nat) (m : Machine)
    (virt size key fuel : Nat) : Option (Machine × Bool) :=
  ReserveVirtualGo grow ((virt + size) % 2 ^ 64) key fuel m virt

/-- TLB canonicity: every nonzero cached leaf caches a canonical page.
Maintained by every operation of the memory subsystem, since the only
code that fills a slot is FindPageTableEntry's walk, after its range
check. -/
def tlbCanon (m : Machine) : Prop :=
  ∀ i : Fin 16, (m.tlb.entry i).entry ≠ 0 →
    canonicalPage (m.tlb.entry i).page

theorem tlbCanon_insert (m : Machine) (i : Fin 16) (e : TlbEntry)
    (hc : tlbCanon m) (he : canonicalPage e.page) :
    tlbCanon (SetTlbEntry m i e) := by
  intro j hj
  rw [SetTlbEntry_entry] at hj ⊢
  by_cases hij : j = i
  · rw [if_pos hij]
    exact he
  · rw [if_neg hij] at hj ⊢
    exact hc j hj

theorem AllocateLinearPageRaw_tlb (grow : System → Option Nat)
    (m : Machine) (p : Nat) (m1 : Machine)
    (h : AllocateLinearPageRaw grow m = some (p, m1)) :
    m1.tlb = m.tlb ∨ m1.tlb = emptyTlb := by
  obtain ⟨s, tl, inv, md, ln⟩ := m
  obtain ⟨rb, mm, ri, rn, c3, rf, ms⟩ := s
  rcases rf with _ | ⟨⟨rfi, rfn⟩, rest⟩
  · by_cases hin : ri = rn
    · subst hin
      rcases hgr : grow ⟨rb, mm, ri, ri, c3, [], ms⟩ with _ | b
      · simp only [AllocateLinearPageRaw, hgr, if_pos rfl] at h
        exact absurd h (by simp)
      · simp only [AllocateLinearPageRaw, hgr, eq_self_iff_true, if_true,
          ResetTlb, Option.some.injEq, Prod.mk.injEq] at h
        obtain ⟨hp, hm1⟩ := h
        subst hm1
        right
        rfl
    · simp only [AllocateLinearPageRaw, if_neg hin, Option.some.injEq,
        Prod.mk.injEq] at h
      obtain ⟨hp, hm1⟩ := h
      subst hm1
      left
      rfl
  · simp only [AllocateLinearPageRaw, Option.some.injEq, Prod.mk.injEq] at h
    obtain ⟨hp, hm1⟩ := h
    subst hm1
    left
    rfl

theorem AllocateLinearPage_tlb (grow : System → Option Nat)
    (m : Machine) (p : Nat) (m1 : Machine)
    (h : AllocateLinearPage grow m = some (p, m1)) :
    m1.tlb = m.tlb ∨ m1.tlb = emptyTlb := by
  unfold AllocateLinearPage at h
  rcases hraw : AllocateLinearPageRaw grow m with _ | ⟨pr, mr⟩
  · rw [hraw] at h
    exact absurd h (by simp)
  · rw [hraw] at h
    simp only [Option.some.injEq, Prod.mk.injEq] at h
    obtain ⟨hp, hm1⟩ := h
    subst hm1
    exact AllocateLinearPageRaw_tlb grow m pr mr hraw

theorem tlbCanon_alloc (grow : System → Option Nat) (m : Machine)
    (p : Nat) (m1 : Machine)
    (h : AllocateLinearPage grow m = some (p, m1)) (hc : tlbCanon m) :
    tlbCanon m1 := by
  rcases AllocateLinearPage_tlb grow m p m1 h with ht | ht
  · intro i hi
    rw [ht] at hi ⊢
    exact hc i hi
  · intro i hi
    rw [ht] at hi
    exact absurd rfl hi

theorem tlbCanon_fault (grow : System → Option Nat) (m : Machine)
    (entry table index : Nat) (hc : tlbCanon m) :
    tlbCanon (HandlePageFault grow m entry table index).2 := by
  unfold HandlePageFault
  rcases ha : AllocatePage grow m with _ | ⟨page, m1⟩
  · exact hc
  · intro i hi
    exact tlbCanon_alloc grow m page m1 ha hc i hi

theorem tlbCanon_walker (grow : System → Option Nat) (m : Machine)
    (page : Nat) (hc : tlbCanon m) :
    tlbCanon (FindPageTableEntryWalk grow m page).2 := by
  unfold FindPageTableEntryWalk
  by_cases hcan : canonicalPage page
  · rw [if_neg (by simpa using hcan)]
    rcases hw : WalkPageTables m.system page with _ | ⟨e4, t4, i4⟩
    · exact hc
    · simp only []
      by_cases hR : e4 &&& PAGE_RSRV ≠ 0
      · rw [if_pos hR]
        rcases hf : HandlePageFault grow m e4 t4 i4 with ⟨x, mf⟩
        have hcf : tlbCanon mf := by
          have h := tlbCanon_fault grow m e4 t4 i4 hc
          rw [hf] at h
          exact h
        by_cases hx : x = 0
        · rw [if_pos hx]
          exact hcf
        · rw [if_neg hx]
          exact tlbCanon_insert mf lastSlot ⟨page, x⟩ hcf hcan
      · rw [if_neg hR]
        exact tlbCanon_insert m lastSlot ⟨page, e4⟩ hc hcan
  · rw [if_pos (by simpa using hcan)]
    exact hc

theorem tlbCanon_fpte (grow : System → Option Nat) (m : Machine)
    (page : Nat) (hc : tlbCanon m) :
    tlbCanon (FindPageTableEntry grow m page).2 := by
  unfold FindPageTableEntry
  by_cases hin : m.invalidated
  · rw [if_pos hin]
    apply tlbCanon_walker
    intro i hi
    exact absurd rfl hi
  · rw [if_neg hin]
    obtain ⟨-, -, -, -, hslots, -⟩ := GetTlbEntry_char m page
    rcases hprobe : GetTlbEntry m page with ⟨e, m1⟩
    rw [hprobe] at hslots
    simp only at hslots ⊢
    have hc1 : tlbCanon m1 := by
      intro i hi
      obtain ⟨j, hj⟩ := hslots i
      rw [hj] at hi ⊢
      exact hc j hi
    by_cases he : e ≠ 0
    · rw [if_pos he]
      exact hc1
    · rw [if_neg he]
      exact tlbCanon_walker grow m1 page hc1

theorem tlbCanon_lookup (grow : System → Option Nat) (m : Machine)
    (virt : Nat) (hc : tlbCanon m) :
    tlbCanon (LookupAddress grow m virt).2 := by
  unfold LookupAddress
  by_cases hmode : m.mode ≠ Mode.real
  · rw [if_pos hmode]
    rcases hf : FindPageTableEntry grow m (virt &&& pageMask) with ⟨e, m1⟩
    simp only []
    have hc1 : tlbCanon m1 := by
      have h := tlbCanon_fpte grow m (virt &&& pageMask) hc
      rw [hf] at h
      exact h
    by_cases he : e = 0
    · rw [if_pos he]
      exact hc1
    · rw [if_neg he]
      rcases GetPageAddress m1.system e with _ | host
      · exact hc1
      · exact hc1
  · rw [if_neg hmode]
    split
    · exact hc
    · exact hc

theorem tlbCanon_getaddr (grow : System → Option Nat) (m : Machine)
    (virt : Nat) (hc : tlbCanon m) :
    tlbCanon (GetAddress grow m virt).2 := by
  unfold GetAddress
  rcases hl : m.linear with _ | base
  · simp only
    exact tlbCanon_lookup grow m virt hc
  · simp only
    exact hc

theorem tlbCanon_resolve (grow : System → Option Nat) (m : Machine)
    (virt : Nat) (hc : tlbCanon m) :
    tlbCanon (ResolveAddress grow m virt).2 := by
  unfold ResolveAddress
  exact tlbCanon_getaddr grow m virt hc

theorem tlbCanon_endstore (m : Machine) (v n p0 p1 : Nat) (b : Nat → Nat)
    (hc : tlbCanon m) : tlbCanon (EndStore m v n p0 p1 b) := by
  unfold EndStore
  split
  · exact hc
  · intro i hi
    exact hc i hi

theorem tlbCanon_vcopy (grow : System → Option Nat) (d : Bool) :
    ∀ fuel m v r ro n k r1 m1,
      VirtualCopyGo grow d fuel m v r ro n k = some (r1, m1) →
      tlbCanon m → tlbCanon m1 := by
  intro fuel
  induction fuel with
  | zero =>
    intro m v r ro n k r1 m1 h
    exact absurd h (by simp [VirtualCopyGo])
  | succ fuel ih =>
    intro m v r ro n k r1 m1 h hc
    rw [VirtualCopyGo] at h
    by_cases hn : n = 0
    · rw [if_pos hn] at h
      simp only [Option.some.injEq, Prod.mk.injEq] at h
      obtain ⟨-, hm⟩ := h
      subst hm
      exact hc
    · rw [if_neg hn] at h
      simp only at h
      have hc2 : tlbCanon (ResolveAddress grow m v).2 :=
        tlbCanon_resolve grow m v hc
      rcases hres : (ResolveAddress grow m v).1 with _ | p
      · rw [hres] at h
        exact absurd h (by simp)
      · rw [hres] at h
        cases d
        · simp only [Bool.false_eq_true, if_false] at h
          exact ih _ _ _ _ _ _ _ _ h (fun i hi => hc2 i hi)
        · simp only [if_true] at h
          exact ih _ _ _ _ _ _ _ _ h hc2

theorem tlbCanon_freev (mallocOk : Bool) (m : Machine)
    (base size fuel : Nat) (m1 : Machine)
    (h : FreeVirtual mallocOk m base size fuel = some m1) : tlbCanon m1 := by
  unfold FreeVirtual at h
  rcases hg : FreeVirtualGo mallocOk ((base + size) % 2 ^ 64) fuel base
      m.system with _ | s1
  · rw [hg] at h
    exact absurd h (by simp)
  · rw [hg] at h
    simp only [Option.map_some', Option.some.injEq] at h
    subst h
    intro i hi
    exact absurd rfl hi

theorem RVLeaf_tlb (endv key : Nat) :
    ∀ fuel m virt ti mi pt m4 v4 done,
      RVLeaf endv key fuel m virt ti mi pt = some (m4, v4, done) →
      m4.tlb = m.tlb := by
  intro fuel
  induction fuel with
  | zero =>
    intro m virt ti mi pt m4 v4 done h
    exact absurd h (by simp [RVLeaf])
  | succ fuel ih =>
    intro m virt ti mi pt m4 v4 done h
    rw [RVLeaf] at h
    simp only at h
    split at h
    · simp only [Option.some.injEq, Prod.mk.injEq] at h
      obtain ⟨hm, -, -⟩ := h
      subst hm
      split <;> rfl
    · split at h
      · simp only [Option.some.injEq, Prod.mk.injEq] at h
        obtain ⟨hm, -, -⟩ := h
        subst hm
        split <;> rfl
      · have h4 := ih _ _ _ _ _ _ _ _ h
        rw [h4]
        split <;> rfl

theorem RVStep_tlbCanon (grow : System → Option Nat) (m : Machine)
    (virt pt level : Nat) (p2 : Nat) (m2 : Machine)
    (h : RVStep grow m virt pt level = some (p2, m2)) (hc : tlbCanon m) :
    tlbCanon m2 := by
  unfold RVStep at h
  simp only at h
  split at h
  · rcases ha : AllocateLinearPage grow m with _ | ⟨page, m1⟩
    · rw [ha] at h
      exact absurd h (by simp)
    · rw [ha] at h
      simp only [Option.some.injEq, Prod.mk.injEq] at h
      obtain ⟨-, hm⟩ := h
      subst hm
      intro i hi
      exact tlbCanon_alloc grow m page m1 ha hc i hi
  · simp only [Option.some.injEq, Prod.mk.injEq] at h
    obtain ⟨-, hm⟩ := h
    subst hm
    exact hc

set_option maxHeartbeats 1000000 in
theorem tlbCanon_rvgo (grow : System → Option Nat) (endv key : Nat) :
    ∀ fuel m virt m1 ok,
      ReserveVirtualGo grow endv key fuel m virt = some (m1, ok) →
      tlbCanon m → tlbCanon m1 := by
  intro fuel
  induction fuel with
  | zero =>
    intro m virt m1 ok h
    exact absurd h (by simp [ReserveVirtualGo])
  | succ fuel ih =>
    intro m virt m1 ok h hc
    rw [ReserveVirtualGo] at h
    rcases h1 : RVStep grow m virt m.system.cr3 39 with _ | ⟨pt1, mm1⟩
    · rw [h1] at h
      simp only [Option.some.injEq, Prod.mk.injEq] at h
      obtain ⟨hm, -⟩ := h
      subst hm
      exact hc
    · rw [h1] at h
      simp only [] at h
      have hc1 := RVStep_tlbCanon grow m virt m.system.cr3 39 pt1 mm1 h1 hc
      rcases h2 : RVStep grow mm1 virt pt1 30 with _ | ⟨pt2, mm2⟩
      · rw [h2] at h
        simp only [Option.some.injEq, Prod.mk.injEq] at h
        obtain ⟨hm, -⟩ := h
        subst hm
        exact hc1
      · rw [h2] at h
        simp only [] at h
        have hc2 := RVStep_tlbCanon grow mm1 virt pt1 30 pt2 mm2 h2 hc1
        rcases h3 : RVStep grow mm2 virt pt2 21 with _ | ⟨pt3, mm3⟩
        · rw [h3] at h
          simp only [Option.some.injEq, Prod.mk.injEq] at h
          obtain ⟨hm, -⟩ := h
          subst hm
          exact hc2
        · rw [h3] at h
          simp only [] at h
          have hc3 := RVStep_tlbCanon grow mm2 virt pt2 21 pt3 mm3 h3 hc2
          rcases h4 : RVLeaf endv key 512 mm3 virt ((virt >>> 12) &&& 511)
              (((pt3 &&& PAGE_TA) &&& PAGE_TA) + ((virt >>> 12) &&& 511) * 8)
              (MachineRead64 mm3.system
                (((pt3 &&& PAGE_TA) &&& PAGE_TA)
                  + ((virt >>> 12) &&& 511) * 8)) with _ | ⟨m4, v4, done⟩
          · rw [h4] at h
            exact absurd h (by simp)
          · rw [h4] at h
            have ht4 := RVLeaf_tlb endv key 512 mm3 virt _ _ _ m4 v4 done h4
            have hc4 : tlbCanon m4 := by
              intro i hi
              rw [ht4] at hi ⊢
              exact hc3 i hi
            cases done
            · exact ih m4 v4 m1 ok h hc4
            · simp only [Option.some.injEq, Prod.mk.injEq] at h
              obtain ⟨hm, -⟩ := h
              subst hm
              exact hc4

theorem tlbCanon_reserveReal (grow : System → Option Nat) (m : Machine)
    (n : Nat) (hc : tlbCanon m) : tlbCanon (ReserveReal grow m n).1 := by
  unfold ReserveReal
  split
  · rcases hg : grow m.system with _ | b
    · simp only [hg]
      exact hc
    · simp only [hg]
      intro i hi
      exact absurd rfl hi
  · exact hc

/-- Machine states reachable through the guest-memory subsystem: a fresh
ResetMem state (what NewMachine hands out), closed under translation
(FindPageTableEntry, LookupAddress, GetAddress, ResolveAddress), demand
paging, page allocation, page-crossing stores, virtual copies, freeing
and reserving, each under arbitrary allocation oracles. -/
inductive Reach : Machine → Prop
  | reset (m : Machine) : Reach (ResetMem m)
  | fpte (grow : System → Option Nat) (m : Machine) (page : Nat) :
      Reach m → Reach (FindPageTableEntry grow m page).2
  | lookup (grow : System → Option Nat) (m : Machine) (virt : Nat) :
      Reach m → Reach (LookupAddress grow m virt).2
  | getaddr (grow : System → Option Nat) (m : Machine) (virt : Nat) :
      Reach m → Reach (GetAddress grow m virt).2
  | resolve (grow : System → Option Nat) (m : Machine) (virt : Nat) :
      Reach m → Reach (ResolveAddress grow m virt).2
  | fault (grow : System → Option Nat) (m : Machine)
      (entry table index : Nat) :
      Reach m → Reach (HandlePageFault grow m entry table index).2
  | allocraw (grow : System → Option Nat) (m : Machine) (p : Nat)
      (m1 : Machine) :
      Reach m → AllocateLinearPageRaw grow m = some (p, m1) → Reach m1
  | alloc (grow : System → Option Nat) (m : Machine) (p : Nat)
      (m1 : Machine) :
      Reach m → AllocateLinearPage grow m = some (p, m1) → Reach m1
  | endstore (m : Machine) (v n p0 p1 : Nat) (b : Nat → Nat) :
      Reach m → Reach (EndStore m v n p0 p1 b)
  | vcopy (grow : System → Option Nat) (d : Bool) (fuel : Nat)
      (m : Machine) (v : Nat) (r : Nat → Nat) (ro n k : Nat)
      (r1 : Nat → Nat) (m1 : Machine) :
      Reach m → VirtualCopyGo grow d fuel m v r ro n k = some (r1, m1) →
      Reach m1
  | freev (mallocOk : Bool) (m : Machine) (base size fuel : Nat)
      (m1 : Machine) :
      Reach m → FreeVirtual mallocOk m base size fuel = some m1 → Reach m1
  | reservev (grow : System → Option Nat) (m : Machine)
      (virt size key fuel : Nat) (m1 : Machine) (ok : Bool) :
      Reach m → ReserveVirtual grow m virt size key fuel = some (m1, ok) →
      Reach m1
  | reserver (grow : System → Option Nat) (m : Machine) (n : Nat) :
      Reach m → Reach (ReserveReal grow m n).1

/-- Every reachable machine has a canonical TLB. -/
theorem tlbCanon_reach (m : Machine) (h : Reach m) : tlbCanon m := by
  induction h with
  | reset m =>
    intro i hi
    exact absurd rfl hi
  | fpte grow m page hr ih => exact tlbCanon_fpte grow m page ih
  | lookup grow m virt hr ih => exact tlbCanon_lookup grow m virt ih
  | getaddr grow m virt hr ih => exact tlbCanon_getaddr grow m virt ih
  | resolve grow m virt hr ih => exact tlbCanon_resolve grow m virt ih
  | fault grow m entry table index hr ih =>
    exact tlbCanon_fault grow m entry table index ih
  | allocraw grow m p m1 hr heq ih =>
    rcases AllocateLinearPageRaw_tlb grow m p m1 heq with ht | ht
    · intro i hi
      rw [ht] at hi ⊢
      exact ih i hi
    · intro i hi
      rw [ht] at hi
      exact absurd rfl hi
  | alloc grow m p m1 hr heq ih => exact tlbCanon_alloc grow m p m1 heq ih
  | endstore m v n p0 p1 b hr ih => exact tlbCanon_endstore m v n p0 p1 b ih
  | vcopy grow d fuel m v r ro n k r1 m1 hr heq ih =>
    exact tlbCanon_vcopy grow d fuel m v r ro n k r1 m1 heq ih
  | freev mallocOk m base size fuel m1 hr heq ih =>
    exact tlbCanon_freev mallocOk m base size fuel m1 heq
  | reservev grow m virt size key fuel m1 ok hr heq ih =>
    exact tlbCanon_rvgo grow ((virt + size) % 2 ^ 64) key fuel m virt m1 ok
      heq ih
  | reserver grow m n hr ih => exact tlbCanon_reserveReal grow m n ih

/-- Claim C3: on every reachable machine state, translation of a virtual
address whose page lies outside the canonical range fails: in non-real
mode FindPageTableEntry returns 0 and LookupAddress returns null.  In
particular the TLB probe preceding the range check can never report a hit
for a non-canonical page, because every operation of the subsystem keeps
cached pages canonical (only the walker, after its range check, fills a
slot). -/
theorem FindPageTableEntry_noncanonical (grow : System → Option Nat)
    (m : Machine) (v : Nat) (hreach : Reach m)
    (hmode : m.mode ≠ Mode.real)
    (hnc : ¬canonicalPage (v &&& pageMask)) :
    (FindPageTableEntry grow m (v &&& pageMask)).1 = 0 ∧
    (LookupAddress grow m v).1 = none := by
  have hcanon := tlbCanon_reach m hreach
  have hfp : (FindPageTableEntry grow m (v &&& pageMask)).1 = 0 := by
    unfold FindPageTableEntry
    by_cases hin : m.invalidated
    · rw [if_pos hin]
      unfold FindPageTableEntryWalk
      rw [if_pos (by simpa using hnc)]
    · rw [if_neg hin]
      obtain ⟨-, -, -, -, -, hhit⟩ := GetTlbEntry_char m (v &&& pageMask)
      rcases hprobe : GetTlbEntry m (v &&& pageMask) with ⟨e, m1⟩
      rw [hprobe] at hhit
      simp only at hhit ⊢
      by_cases he : e ≠ 0
      · exfalso
        obtain ⟨j, hjpage, hjentry⟩ := hhit he
        have hcj := hcanon j (by rw [hjentry]; exact he)
        rw [hjpage] at hcj
        exact hnc hcj
      · rw [if_neg he]
        unfold FindPageTableEntryWalk
        rw [if_pos (by simpa using hnc)]
  refine ⟨hfp, ?_⟩
  unfold LookupAddress
  rw [if_pos hmode]
  rcases hf : FindPageTableEntry grow m (v &&& pageMask) with ⟨e, m1⟩
  rw [hf] at hfp
  simp only at hfp ⊢
  subst hfp
  rw [if_pos rfl]

/-- Witness for C3 at the freshly reset baseline machine and the first
non-canonical address 2^47. -/
theorem FindPageTableEntry_noncanonical_witness :
    Reach (ResetMem m0) ∧ (ResetMem m0).mode ≠ Mode.real ∧
      ¬canonicalPage ((0x800000000000 : Nat) &&& pageMask) ∧
      ((FindPageTableEntry (fun _ => none) (ResetMem m0)
          ((0x800000000000 : Nat) &&& pageMask)).1 = 0 ∧
        (LookupAddress (fun _ => none) (ResetMem m0) 0x800000000000).1
          = none) :=
  ⟨Reach.reset m0, by decide, by decide,
    FindPageTableEntry_noncanonical (fun _ => none) (ResetMem m0)
      0x800000000000 (Reach.reset m0) (by decide) (by decide)⟩

end Blink
